import Mathlib

set_option maxRecDepth 10000

/-!
Shallow embedding of the TecnicoFS core (tecnicofs `state.c` / `operations.c`,
provided in this repository as a single concatenated header `fs/config.h`).

Modelling conventions:
  * The shared mutable state (`inode_table_s`, `data_blocks_s`, `fs_state_s`)
    becomes the record `FSState`; each operation threads the state explicitly
    and returns the C function's `int` / `ssize_t` result as an `Int`
    (`-1` on failure, as in the source).
  * Fixed arrays become functions `Nat -> _`; only indices below the
    corresponding table size are meaningful.  `updF` is a single-point update,
    `memWrite` / `memSet` model `memcpy` / `memset` on the flat data region
    `fs_data` (byte address = block number * BLOCK_SIZE + offset in block).
  * Bytes are `Nat` values; `memset(p, -1, n)` on `unsigned char` data stores
    the byte 255.
  * C strings are `List Char` (the characters before the terminating NUL;
    embedded NUL bytes cannot occur in a C string, so the model has no NUL).
    `cstrncmpEq` is `strncmp(a, b, n) == 0` with end-of-list playing the role
    of the terminator; `strncpy` into a `MAX_FILE_NAME` buffer followed by a
    forced terminator at index 39 is `List.take 39`.
  * The only directory ever created is the root (inumber 0, created by
    `tfs_init`; `tfs_open` only ever creates `T_FILE` inodes), so the contents
    of the root directory block are modelled by the dedicated field `dir`
    instead of a byte-level layout inside `fs_data`.  `MAX_DIR_ENTRIES` is
    `BLOCK_SIZE / sizeof(dir_entry_t)`; on an LP64 glibc platform
    `sizeof(dir_entry_t) = 144` (40-byte name, int, pthread mutex and rwlock,
    padding), giving 7 entries.
  * Locks only synchronise threads; in this single-thread embedding every
    lock/unlock helper of the source succeeds and is a no-op, so they are not
    represented.  The storage-delay injector is functionally a no-op and is
    likewise omitted.
  * `size_t` subtraction that can wrap is modelled by `sub64`; all other
    arithmetic in the source stays within range in the situations the theorems
    below consider, and is modelled on `Nat`.
  * Two places in the source can dereference a NULL/out-of-range pointer
    (the reference-array store in `indirect_block_insert` when the indirect
    block reference is unassigned or the new block number is below
    `FIRST_INDIRECT_BLOCK`); that undefined behaviour is modelled as a no-op
    store, and no theorem below depends on such a state.
  * The flag values are not part of the provided sources (they live in
    `operations.h`); `TFS_O_APPEND`, `TFS_O_TRUNC`, `TFS_O_CREAT` are
    modelled from the spec: bit 0, bit 1 and bit 6 of the flag bitmask.
-/

/-- Constants from `config.h` and `state.c`. -/
abbrev BLOCK_SIZE : Nat := 1024

abbrev DATA_BLOCKS : Nat := 1024

abbrev INODE_TABLE_SIZE : Nat := 50

abbrev MAX_OPEN_FILES : Nat := 20

abbrev MAX_FILE_NAME : Nat := 40

abbrev MAX_BYTES : Nat := 272384

abbrev MAX_DIRECT_BLOCKS : Nat := 10

abbrev MAX_BYTES_DIRECT_DATA : Nat := 10240

abbrev REFERENCE_BLOCK_INDEX : Nat := 11

abbrev FIRST_INDIRECT_BLOCK : Nat := 12

abbrev MAX_DIR_ENTRIES : Nat := 7

abbrev ROOT_DIR_INUM : Int := 0

/-- Modelled from the spec: flag bit values of `operations.h` (bit 0 =
`APPEND`, bit 1 = `TRUNC`, bit 6 = `CREATE`). -/
abbrev TFS_O_APPEND : Nat := 1

abbrev TFS_O_TRUNC : Nat := 2

abbrev TFS_O_CREAT : Nat := 64

/-- Single-point update of a function modelling an array cell assignment. -/
def updF {α : Type} (f : Nat → α) (i : Nat) (v : α) : Nat → α :=
  fun j => if j = i then v else f j

/-- Model of `memcpy(mem + dst, src, len)` on a flat byte region. -/
def memWrite (mem : Nat → Nat) (dst : Nat) (src : Nat → Nat) (len : Nat) : Nat → Nat :=
  fun a => if dst ≤ a ∧ a < dst + len then src (a - dst) else mem a

/-- Model of `memset(mem + dst, v, len)` on a flat byte region. -/
def memSet (mem : Nat → Nat) (dst : Nat) (v : Nat) (len : Nat) : Nat → Nat :=
  fun a => if dst ≤ a ∧ a < dst + len then v else mem a

/-- Little-endian store of a 4-byte `int` value into the byte region
(the store `last_i_block[idx] = block_number` in `indirect_block_insert`). -/
def storeLE4 (mem : Nat → Nat) (addr : Nat) (v : Nat) : Nat → Nat :=
  fun a => if addr ≤ a ∧ a < addr + 4 then v / 256 ^ (a - addr) % 256 else mem a

/-- Wrapping `size_t` subtraction (`a - b` computed on 64-bit unsigned). -/
def sub64 (a b : Nat) : Nat := (a + 18446744073709551616 - b) % 18446744073709551616

/-- First-fit scan: the first index `j` with `i ≤ j < i + cnt` and `p j`,
modelling the linear scans over the allocation bitmaps and directory block. -/
def firstFit (p : Nat → Bool) : Nat → Nat → Option Nat
  | _, 0 => none
  | i, cnt + 1 => if p i then some i else firstFit p (i + 1) cnt

/-- Model of `strncmp(a, b, n) == 0`, end-of-list standing for the NUL
terminator. -/
def cstrncmpEq : List Char → List Char → Nat → Bool
  | _, _, 0 => true
  | [], [], _ + 1 => true
  | [], _ :: _, _ + 1 => false
  | _ :: _, [], _ + 1 => false
  | a :: as, b :: bs, n + 1 => a == b && cstrncmpEq as bs n

/-- The `inode_type` enum. -/
inductive InodeType where
  | T_FILE : InodeType
  | T_DIRECTORY : InodeType
deriving DecidableEq, Repr

export InodeType (T_FILE T_DIRECTORY)

/-- The `inode_t` record (lock fields omitted, see the header comment). -/
structure Inode where
  i_node_type : InodeType
  i_size : Nat
  i_data_block : Int
  i_block : Nat → Int

/-- A `dir_entry_t`: name and inumber (lock fields omitted). -/
structure DirEntry where
  d_name : List Char
  d_inumber : Int

/-- The complete mutable state of the filesystem: `inode_table_s`,
`data_blocks_s` and `fs_state_s`, plus the contents of the root directory
block (see the header comment).  Allocation maps are `Bool`-valued:
`false` is `FREE`, `true` is `TAKEN`. -/
structure FSState where
  freeinode_ts : Nat → Bool
  inode_table : Nat → Inode
  free_blocks : Nat → Bool
  fs_data : Nat → Nat
  free_open_file_entries : Nat → Bool
  of_inumber : Nat → Int
  of_offset : Nat → Nat
  dir : Nat → DirEntry

/-- `valid_inumber`. -/
def valid_inumber (inumber : Int) : Bool :=
  decide (0 ≤ inumber ∧ inumber < INODE_TABLE_SIZE)

/-- `valid_block_number`. -/
def valid_block_number (block_number : Int) : Bool :=
  decide (0 ≤ block_number ∧ block_number < DATA_BLOCKS)

/-- `valid_file_handle`. -/
def valid_file_handle (file_handle : Int) : Bool :=
  decide (0 ≤ file_handle ∧ file_handle < MAX_OPEN_FILES)

/-- `data_block_alloc`: first-fit scan of the block bitmap. -/
def data_block_alloc (s : FSState) : Int × FSState :=
  match firstFit (fun i => !s.free_blocks i) 0 DATA_BLOCKS with
  | some i => ((i : Int), { s with free_blocks := updF s.free_blocks i true })
  | none => (-1, s)

/-- `data_block_free`. -/
def data_block_free (block_number : Int) (s : FSState) : Int × FSState :=
  if valid_block_number block_number = true then
    (0, { s with free_blocks := updF s.free_blocks block_number.toNat false })
  else (-1, s)

/-- `inode_get`: bounds check only; the returned "pointer" is the table
index.  Note the occupancy bitmap is not consulted. -/
def inode_get (inumber : Int) : Option Nat :=
  if valid_inumber inumber = true then some inumber.toNat else none

/-- `inode_create`: first-fit scan of the inode bitmap; a directory gets one
data block whose entries are all cleared to inumber `-1`; a file starts with
size 0 and all block references `-1`. -/
def inode_create (n_type : InodeType) (s : FSState) : Int × FSState :=
  match firstFit (fun i => !s.freeinode_ts i) 0 INODE_TABLE_SIZE with
  | none => (-1, s)
  | some inumber =>
    let s1 : FSState := { s with freeinode_ts := updF s.freeinode_ts inumber true }
    match n_type with
    | T_DIRECTORY =>
      let p := data_block_alloc s1
      if p.1 = -1 then
        (-1, { p.2 with freeinode_ts := updF p.2.freeinode_ts inumber false })
      else
        ((inumber : Int),
          { p.2 with
            inode_table := updF p.2.inode_table inumber
              ⟨T_DIRECTORY, BLOCK_SIZE, p.1, fun _ => -1⟩,
            dir := fun k =>
              if k < MAX_DIR_ENTRIES then ⟨(p.2.dir k).d_name, -1⟩ else p.2.dir k })
    | T_FILE =>
      ((inumber : Int),
        { s1 with inode_table := updF s1.inode_table inumber ⟨T_FILE, 0, -1, fun _ => -1⟩ })

/-- `inode_delete`: frees the bitmap slot; if the inode's size is positive it
also frees the working data block (and reports failure if that block number
is invalid). -/
def inode_delete (inumber : Int) (s : FSState) : Int × FSState :=
  if valid_inumber inumber = true ∧ s.freeinode_ts inumber.toNat = true then
    let s1 : FSState := { s with freeinode_ts := updF s.freeinode_ts inumber.toNat false }
    if (s1.inode_table inumber.toNat).i_size > 0 then
      let p := data_block_free (s1.inode_table inumber.toNat).i_data_block s1
      if p.1 = -1 then (-1, p.2) else (0, p.2)
    else (0, s1)
  else (-1, s)

/-- `add_dir_entry`: fills the first empty root-directory entry with the
truncated name (`strncpy` of at most `MAX_FILE_NAME - 1` characters). -/
def add_dir_entry (inumber sub_inumber : Int) (sub_name : List Char) (s : FSState) :
    Int × FSState :=
  if ¬(valid_inumber inumber = true ∧ valid_inumber sub_inumber = true) then (-1, s)
  else if (s.inode_table inumber.toNat).i_node_type ≠ T_DIRECTORY then (-1, s)
  else if sub_name.length = 0 then (-1, s)
  else if ¬ valid_block_number (s.inode_table inumber.toNat).i_data_block = true then (-1, s)
  else
    match firstFit (fun k => (s.dir k).d_inumber == -1) 0 MAX_DIR_ENTRIES with
    | some k =>
      (0, { s with dir := updF s.dir k ⟨sub_name.take (MAX_FILE_NAME - 1), sub_inumber⟩ })
    | none => (-1, s)

/-- `find_in_dir`: first root-directory entry whose inumber is not `-1` and
whose name matches (`strncmp` over `MAX_FILE_NAME` bytes). -/
def find_in_dir (inumber : Int) (sub_name : List Char) (s : FSState) : Int :=
  if ¬ valid_inumber inumber = true then -1
  else if (s.inode_table inumber.toNat).i_node_type ≠ T_DIRECTORY then -1
  else if ¬ valid_block_number (s.inode_table inumber.toNat).i_data_block = true then -1
  else
    match firstFit
        (fun k => (s.dir k).d_inumber != -1 &&
          cstrncmpEq (s.dir k).d_name sub_name MAX_FILE_NAME) 0 MAX_DIR_ENTRIES with
    | some k => (s.dir k).d_inumber
    | none => -1

/-- `add_to_open_file_table`: first-fit scan of the open-file bitmap. -/
def add_to_open_file_table (inumber : Int) (offset : Nat) (s : FSState) : Int × FSState :=
  match firstFit (fun i => !s.free_open_file_entries i) 0 MAX_OPEN_FILES with
  | some i =>
    ((i : Int),
      { s with
        free_open_file_entries := updF s.free_open_file_entries i true,
        of_inumber := updF s.of_inumber i inumber,
        of_offset := updF s.of_offset i offset })
  | none => (-1, s)

/-- `remove_from_open_file_table`. -/
def remove_from_open_file_table (fhandle : Int) (s : FSState) : Int × FSState :=
  if valid_file_handle fhandle = true ∧ s.free_open_file_entries fhandle.toNat = true then
    (0, { s with free_open_file_entries := updF s.free_open_file_entries fhandle.toNat false })
  else (-1, s)

/-- `get_open_file_entry`: bounds check only; the returned "pointer" is the
table index.  The occupancy bitmap is not consulted. -/
def get_open_file_entry (fhandle : Int) : Option Nat :=
  if valid_file_handle fhandle = true then some fhandle.toNat else none

/-- `direct_block_insert`: allocate a data block, record it as the working
block, fill it with `0xFF` bytes (`memset(block, -1, BLOCK_SIZE)`), and
register it in direct slot `block_number - 1`. -/
def direct_block_insert (i : Nat) (s : FSState) : Int × FSState :=
  let p := data_block_alloc s
  let s2 : FSState :=
    { p.2 with inode_table := updF p.2.inode_table i { p.2.inode_table i with i_data_block := p.1 } }
  if p.1 = -1 then (-1, s2)
  else
    let s3 : FSState := { s2 with fs_data := memSet s2.fs_data (p.1.toNat * BLOCK_SIZE) 255 BLOCK_SIZE }
    let ino := s3.inode_table i
    (0, { s3 with
          inode_table := updF s3.inode_table i
            { ino with i_block := updF ino.i_block (p.1.toNat - 1) p.1 } })

/-- `tfs_handle_indirect_block`: allocate the reference block into
`i_block[MAX_DIRECT_BLOCKS]` and the working block; `memset` clears only
`sizeof(void *)` = 8 bytes of it. -/
def tfs_handle_indirect_block (i : Nat) (s : FSState) : Int × FSState :=
  let p := data_block_alloc s
  if p.1 = -1 then (-1, p.2)
  else
    let ino := p.2.inode_table i
    let s2 : FSState :=
      { p.2 with
        inode_table := updF p.2.inode_table i
          { ino with i_block := updF ino.i_block MAX_DIRECT_BLOCKS p.1, i_data_block := p.1 } }
    (0, { s2 with fs_data := memSet s2.fs_data (p.1.toNat * BLOCK_SIZE) 255 8 })

/-- `indirect_block_insert`: allocate a data block, record it as the working
block, `memset` its first `BLOCK_SIZE / sizeof(int)` = 256 bytes to `0xFF`,
and store its number in slot `block_number - FIRST_INDIRECT_BLOCK` of the
reference block.  When the reference block is unassigned or the slot index
would be negative the source dereferences an invalid pointer; that undefined
behaviour is modelled as a no-op store. -/
def indirect_block_insert (i : Nat) (s : FSState) : Int × FSState :=
  let refb := (s.inode_table i).i_block MAX_DIRECT_BLOCKS
  let p := data_block_alloc s
  if p.1 = -1 then (-1, p.2)
  else
    let s2 : FSState :=
      { p.2 with inode_table := updF p.2.inode_table i { p.2.inode_table i with i_data_block := p.1 } }
    let s3 : FSState :=
      { s2 with fs_data := memSet s2.fs_data (p.1.toNat * BLOCK_SIZE) 255 (BLOCK_SIZE / 4) }
    if valid_block_number refb = true ∧ FIRST_INDIRECT_BLOCK ≤ p.1.toNat then
      (0, { s3 with
            fs_data := storeLE4 s3.fs_data
              (refb.toNat * BLOCK_SIZE + 4 * (p.1.toNat - FIRST_INDIRECT_BLOCK)) p.1.toNat })
    else (0, s3)

/-- Loop body of `tfs_write_direct_region` (`for (i = 0; write_size > 0 &&
i < REFERENCE_BLOCK_INDEX; i++)`); `fuel` is the remaining number of loop
iterations. -/
def writeDirectLoop (i f : Nat) (buffer : Nat → Nat) :
    Nat → Nat → Nat → FSState → Int × FSState
  | 0, _, bytes_written, s => ((bytes_written : Int), s)
  | fuel + 1, write_size, bytes_written, s =>
    if write_size = 0 then ((bytes_written : Int), s)
    else
      let q : Int × FSState :=
        if (s.inode_table i).i_size % BLOCK_SIZE = 0 then direct_block_insert i s else (0, s)
      if q.1 = -1 then (-1, q.2)
      else
        let s1 := q.2
        let db := (s1.inode_table i).i_data_block
        if ¬ valid_block_number db = true then (-1, s1)
        else
          let off := s1.of_offset f
          let r : Nat × Nat :=
            if write_size ≥ BLOCK_SIZE ∨ BLOCK_SIZE - off % BLOCK_SIZE < write_size then
              (BLOCK_SIZE - off % BLOCK_SIZE, write_size - (BLOCK_SIZE - off % BLOCK_SIZE))
            else (write_size, 0)
          let s2 : FSState :=
            { s1 with
              fs_data := memWrite s1.fs_data (db.toNat * BLOCK_SIZE + off % BLOCK_SIZE)
                (fun j => buffer (bytes_written + j)) r.1 }
          let s3 : FSState :=
            { s2 with
              of_offset := updF s2.of_offset f (off + r.1),
              inode_table := updF s2.inode_table i
                { s2.inode_table i with i_size := (s2.inode_table i).i_size + r.1 } }
          writeDirectLoop i f buffer fuel r.2 (bytes_written + r.1) s3

/-- `tfs_write_direct_region`. -/
def tfs_write_direct_region (i f : Nat) (buffer : Nat → Nat) (write_size : Nat)
    (s : FSState) : Int × FSState :=
  writeDirectLoop i f buffer REFERENCE_BLOCK_INDEX write_size 0 s

/-- Loop body of `tfs_write_indirect_region` (`for (i = 0; write_size > 0;
i++)`, which additionally clamps `write_size` to `MAX_BYTES - i_size` at the
start of every iteration).  The loop writes at least one byte per iteration
until the count is exhausted, so `write_size + 1` units of fuel are always
sufficient; fuel exhaustion is unreachable in the calls made below. -/
def writeIndirectLoop (i f : Nat) (buffer : Nat → Nat) :
    Nat → Nat → Nat → FSState → Int × FSState
  | 0, _, bytes_written, s => ((bytes_written : Int), s)
  | fuel + 1, write_size, bytes_written, s =>
    if write_size = 0 then ((bytes_written : Int), s)
    else
      let sz := (s.inode_table i).i_size
      let ws1 := if sz + write_size > MAX_BYTES then sub64 MAX_BYTES sz else write_size
      let q : Int × FSState :=
        if sz % BLOCK_SIZE = 0 then indirect_block_insert i s else (0, s)
      if q.1 = -1 then (-1, q.2)
      else
        let s1 := q.2
        let db := (s1.inode_table i).i_data_block
        if ¬ valid_block_number db = true then (-1, s1)
        else
          let off := s1.of_offset f
          let r : Nat × Nat :=
            if ws1 ≥ BLOCK_SIZE ∨ BLOCK_SIZE - off % BLOCK_SIZE < ws1 then
              (BLOCK_SIZE - off % BLOCK_SIZE, ws1 - (BLOCK_SIZE - off % BLOCK_SIZE))
            else (ws1, 0)
          let s2 : FSState :=
            { s1 with
              fs_data := memWrite s1.fs_data (db.toNat * BLOCK_SIZE + off % BLOCK_SIZE)
                (fun j => buffer (bytes_written + j)) r.1 }
          let s3 : FSState :=
            { s2 with
              of_offset := updF s2.of_offset f (off + r.1),
              inode_table := updF s2.inode_table i
                { s2.inode_table i with i_size := (s2.inode_table i).i_size + r.1 } }
          writeIndirectLoop i f buffer fuel r.2 (bytes_written + r.1) s3

/-- `tfs_write_indirect_region`. -/
def tfs_write_indirect_region (i f : Nat) (buffer : Nat → Nat) (write_size : Nat)
    (s : FSState) : Int × FSState :=
  writeIndirectLoop i f buffer (write_size + 1) write_size 0 s

/-- Loop body of `tfs_read_direct_region` (`while (to_read > 0 &&
current_block <= MAX_DIRECT_BLOCKS)`).  `base` is the original destination
pointer offset (`buffer` may point into the middle of the caller's buffer);
the loop reads at least one byte per iteration, so `to_read + 1` units of
fuel are always sufficient. -/
def readDirectLoop (f base : Nat) :
    Nat → Nat → Nat → (Nat → Nat) → FSState → Int × ((Nat → Nat) × FSState)
  | 0, _, total_read, dest, s => ((total_read : Int), dest, s)
  | fuel + 1, to_read, total_read, dest, s =>
    let off := s.of_offset f
    let current_block := off / BLOCK_SIZE + 1
    if to_read = 0 ∨ ¬ current_block ≤ MAX_DIRECT_BLOCKS then ((total_read : Int), dest, s)
    else if ¬ valid_block_number (current_block : Int) = true then (-1, dest, s)
    else
      let block_offset := off % BLOCK_SIZE
      let r : Nat × Nat :=
        if to_read + block_offset > BLOCK_SIZE then
          (BLOCK_SIZE - block_offset, to_read - (BLOCK_SIZE - block_offset))
        else (to_read, 0)
      let dest2 := memWrite dest (base + total_read)
        (fun j => s.fs_data (current_block * BLOCK_SIZE + block_offset + j)) r.1
      let s2 : FSState := { s with of_offset := updF s.of_offset f (off + r.1) }
      readDirectLoop f base fuel r.2 (total_read + r.1) dest2 s2

/-- `tfs_read_direct_region`: the walk runs only when the requested range
lies inside the direct region; otherwise `total_read` stays 0. -/
def tfs_read_direct_region (f base : Nat) (to_read : Nat) (dest : Nat → Nat)
    (s : FSState) : Int × ((Nat → Nat) × FSState) :=
  if s.of_offset f + to_read ≤ MAX_BYTES_DIRECT_DATA then
    readDirectLoop f base (to_read + 1) to_read 0 dest s
  else (0, dest, s)

/-- Loop body of `tfs_read_indirect_region` (`while (to_read > 0)`), reading
from block `offset / BLOCK_SIZE + 2`. -/
def readIndirectLoop (f base : Nat) :
    Nat → Nat → Nat → (Nat → Nat) → FSState → Int × ((Nat → Nat) × FSState)
  | 0, _, total_read, dest, s => ((total_read : Int), dest, s)
  | fuel + 1, to_read, total_read, dest, s =>
    if to_read = 0 then ((total_read : Int), dest, s)
    else
      let off := s.of_offset f
      let current_block := off / BLOCK_SIZE + 2
      if ¬ valid_block_number (current_block : Int) = true then (-1, dest, s)
      else
        let block_offset := off % BLOCK_SIZE
        let r : Nat × Nat :=
          if to_read + block_offset > BLOCK_SIZE then
            (BLOCK_SIZE - block_offset, to_read - (BLOCK_SIZE - block_offset))
          else (to_read, 0)
        let dest2 := memWrite dest (base + total_read)
          (fun j => s.fs_data (current_block * BLOCK_SIZE + block_offset + j)) r.1
        let s2 : FSState := { s with of_offset := updF s.of_offset f (off + r.1) }
        readIndirectLoop f base fuel r.2 (total_read + r.1) dest2 s2

/-- `tfs_read_indirect_region`. -/
def tfs_read_indirect_region (f base : Nat) (to_read : Nat) (dest : Nat → Nat)
    (s : FSState) : Int × ((Nat → Nat) × FSState) :=
  readIndirectLoop f base (to_read + 1) to_read 0 dest s

/-- `valid_pathname`: non-null, length strictly greater than 1, starting
with a slash. -/
def valid_pathname (name : List Char) : Bool :=
  decide (name.length > 1) && (name.head? == some '/')

/-- `tfs_lookup`. -/
def tfs_lookup (name : List Char) (s : FSState) : Int :=
  if ¬ valid_pathname name = true then -1
  else find_in_dir ROOT_DIR_INUM name.tail s

/-- The all-zero state of the C static storage (before `tfs_init`);
`state_init` itself only initialises locks and the (already zero = `FREE`)
allocation maps. -/
def zeroFS : FSState :=
  { freeinode_ts := fun _ => false
    inode_table := fun _ => ⟨T_FILE, 0, 0, fun _ => 0⟩
    free_blocks := fun _ => false
    fs_data := fun _ => 0
    free_open_file_entries := fun _ => false
    of_inumber := fun _ => 0
    of_offset := fun _ => 0
    dir := fun _ => ⟨[], 0⟩ }

/-- `tfs_init`: create the root directory inode, which must get inumber 0. -/
def tfs_init : Int × FSState :=
  let p := inode_create T_DIRECTORY zeroFS
  if p.1 ≠ ROOT_DIR_INUM then (-1, p.2) else (0, p.2)

/-- `tfs_open`. -/
def tfs_open (name : List Char) (flags : Nat) (s : FSState) : Int × FSState :=
  if ¬ valid_pathname name = true then (-1, s)
  else
    let inum := tfs_lookup name s
    if 0 ≤ inum then
      match inode_get inum with
      | none => (-1, s)
      | some i =>
        let q : Int × FSState :=
          if flags &&& TFS_O_TRUNC ≠ 0 then
            if (s.inode_table i).i_size > 0 then
              let p := data_block_free (s.inode_table i).i_data_block s
              if p.1 = -1 then (-1, p.2)
              else
                (0, { p.2 with
                      inode_table := updF p.2.inode_table i
                        { p.2.inode_table i with i_size := 0 } })
            else (0, s)
          else (0, s)
        if q.1 = -1 then (-1, q.2)
        else
          let offset : Nat :=
            if flags &&& TFS_O_APPEND ≠ 0 then (q.2.inode_table i).i_size else 0
          add_to_open_file_table inum offset q.2
    else if flags &&& TFS_O_CREAT ≠ 0 then
      let p := inode_create T_FILE s
      if p.1 = -1 then (-1, p.2)
      else
        let q := add_dir_entry ROOT_DIR_INUM p.1 name.tail p.2
        if q.1 = -1 then
          let d := inode_delete p.1 q.2
          (-1, d.2)
        else add_to_open_file_table p.1 0 q.2
    else (-1, s)

/-- `tfs_close`. -/
def tfs_close (fhandle : Int) (s : FSState) : Int × FSState :=
  remove_from_open_file_table fhandle s

/-- `tfs_write`. -/
def tfs_write (fhandle : Int) (buffer : Nat → Nat) (to_write : Nat) (s : FSState) :
    Int × FSState :=
  if to_write = 0 then (-1, s)
  else
    match get_open_file_entry fhandle with
    | none => (-1, s)
    | some f =>
      match inode_get (s.of_inumber f) with
      | none => (-1, s)
      | some i =>
        if (s.inode_table i).i_size + to_write ≤ MAX_BYTES_DIRECT_DATA then
          tfs_write_direct_region i f buffer to_write s
        else if (s.inode_table i).i_size ≥ MAX_BYTES_DIRECT_DATA then
          let s1 :=
            if (s.inode_table i).i_block MAX_DIRECT_BLOCKS = -1 then
              (tfs_handle_indirect_block i s).2
            else s
          tfs_write_indirect_region i f buffer to_write s1
        else
          let direct_size := MAX_BYTES_DIRECT_DATA - (s.inode_table i).i_size
          let indirect_size := to_write - direct_size
          let p := tfs_write_direct_region i f buffer direct_size s
          let s2 :=
            if (p.2.inode_table i).i_block MAX_DIRECT_BLOCKS = -1 then
              (tfs_handle_indirect_block i p.2).2
            else p.2
          if p.1 = -1 then (-1, s2)
          else
            let q := tfs_write_indirect_region i f (fun j => buffer (direct_size + j))
              indirect_size s2
            if q.1 = -1 then (-1, q.2)
            else (p.1 + q.1, q.2)

/-- `tfs_read`. -/
def tfs_read (fhandle : Int) (dest : Nat → Nat) (len : Nat) (s : FSState) :
    Int × ((Nat → Nat) × FSState) :=
  if len = 0 then (-1, dest, s)
  else
    match get_open_file_entry fhandle with
    | none => (-1, dest, s)
    | some f =>
      match inode_get (s.of_inumber f) with
      | none => (-1, dest, s)
      | some i =>
        let tr0 := sub64 (s.inode_table i).i_size (s.of_offset f)
        let to_read := if tr0 > len then len else tr0
        if s.of_offset f + to_read ≤ MAX_BYTES_DIRECT_DATA then
          tfs_read_direct_region f 0 to_read dest s
        else if s.of_offset f ≥ MAX_BYTES_DIRECT_DATA then
          tfs_read_indirect_region f 0 to_read dest s
        else
          let bd :=
            if to_read + s.of_offset f > MAX_BYTES_DIRECT_DATA then
              MAX_BYTES_DIRECT_DATA - s.of_offset f
            else 0
          let tr2 := to_read - bd
          let p := tfs_read_direct_region f 0 bd dest s
          if p.1 = -1 then (-1, p.2)
          else
            let q := tfs_read_indirect_region f p.1.toNat tr2 p.2.1 p.2.2
            if q.1 = -1 then (-1, q.2)
            else (p.1 + q.1, q.2)

/-! Scenario definitions used by the theorems below. -/

/-- State and handle after `tfs_init(); tfs_open(name, TFS_O_CREAT)` on a
path that does not yet exist (the fresh filesystem). -/
def postCreate (name : List Char) : Int × FSState :=
  tfs_open name TFS_O_CREAT tfs_init.2

/-- Result and state of writing `n` bytes of `buf` through the fresh handle
returned by `postCreate`. -/
def postWrite (name : List Char) (buf : Nat → Nat) (n : Nat) : Int × FSState :=
  tfs_write (postCreate name).1 buf n (postCreate name).2

/-- The single-threaded round trip of claim C1: `init`, create `name`, write
`n` bytes of `buf` from the fresh handle, close it, open `name` again and
read `n` bytes into `dest`.  Returns (write result, read result, final
destination buffer). -/
def roundTrip (name : List Char) (buf dest : Nat → Nat) (n : Nat) :
    Int × Int × (Nat → Nat) :=
  let p2 := postWrite name buf n
  let p3 := tfs_close (postCreate name).1 p2.2
  let p4 := tfs_open name 0 p3.2
  let p5 := tfs_read p4.1 dest n p4.2
  (p2.1, p5.1, p5.2.1)

/-- Invariant claimed by C4 for every allocated inode: size within bounds,
and no indirect block while the size fits the direct region. -/
def sizeIndirectInv (s : FSState) : Prop :=
  ∀ i < INODE_TABLE_SIZE, s.freeinode_ts i = true →
    (s.inode_table i).i_size ≤ MAX_BYTES ∧
      ((s.inode_table i).i_size ≤ MAX_BYTES_DIRECT_DATA →
        (s.inode_table i).i_block MAX_DIRECT_BLOCKS = -1)

/-- The part of the C4 invariant that the code does preserve: every
allocated inode's size stays at most `MAX_BYTES`. -/
def sizeInv (s : FSState) : Prop :=
  ∀ i < INODE_TABLE_SIZE, s.freeinode_ts i = true →
    (s.inode_table i).i_size ≤ MAX_BYTES

/-- A 41-character valid pathname (40-character file name), used to refute
the unrestricted round-trip claim. -/
def longName : List Char := '/' :: List.replicate 40 'a'

/-- Two files written interleaved: `/a` gets one byte 120, `/b` one byte 121
(so `/b`'s first data block is block 2, registered in direct slot 1). -/
def twoFileState : FSState :=
  (tfs_write (tfs_open ['/', 'b'] TFS_O_CREAT
      (tfs_write (tfs_open ['/', 'a'] TFS_O_CREAT tfs_init.2).1 (fun _ => 120) 1
        (tfs_open ['/', 'a'] TFS_O_CREAT tfs_init.2).2).2).1
    (fun _ => 121) 1
    (tfs_open ['/', 'b'] TFS_O_CREAT
      (tfs_write (tfs_open ['/', 'a'] TFS_O_CREAT tfs_init.2).1 (fun _ => 120) 1
        (tfs_open ['/', 'a'] TFS_O_CREAT tfs_init.2).2).2).2).2

/-- Fresh open of `/b` on `twoFileState` followed by a one-byte read. -/
def twoFileRead : Int × ((Nat → Nat) × FSState) :=
  tfs_read (tfs_open ['/', 'b'] 0 twoFileState).1 (fun _ => 0) 1
    (tfs_open ['/', 'b'] 0 twoFileState).2

/-- State after writing 10241 bytes to a fresh `/a` (one byte into the
indirect region) and the subsequent `TFS_O_TRUNC` open of `/a`. -/
def c4Write : Int × FSState := postWrite ['/', 'a'] (fun _ => 70) 10241

/-- The `TFS_O_TRUNC` open performed on `c4Write`. -/
def c4Trunc : Int × FSState := tfs_open ['/', 'a'] TFS_O_TRUNC c4Write.2

/-- State after create, write of 5 bytes and close of the handle: handle 0
is a closed, in-range handle whose entry still carries inumber 1, offset 5. -/
def c10Closed : FSState :=
  (tfs_close (postCreate ['/', 'a']).1 (postWrite ['/', 'a'] (fun j => 104 + j) 5).2).2

/-- A synthetic state with a single open file of size `MAX_BYTES` (inode 1,
handle 0, offset at end of file, indirect block 11 assigned, blocks 0..267
taken), used as the witness state for the write-clamp claim. -/
def fullFileState : FSState :=
  { freeinode_ts := fun i => decide (i ≤ 1)
    inode_table := fun i =>
      if i = 1 then ⟨T_FILE, MAX_BYTES, 267, fun k => if k = 10 then 11 else 0⟩
      else ⟨T_DIRECTORY, BLOCK_SIZE, 0, fun _ => -1⟩
    free_blocks := fun b => decide (b ≤ 267)
    fs_data := fun _ => 0
    free_open_file_entries := fun k => decide (k = 0)
    of_inumber := fun _ => 1
    of_offset := fun _ => MAX_BYTES
    dir := fun k => if k = 0 then ⟨['a'], 1⟩ else ⟨[], -1⟩ }

/-- A synthetic state whose root directory is completely full (all
`MAX_DIR_ENTRIES` entries carry inumber 5 and a name that matches no
lookup below), used as the witness state for the create-rollback claim. -/
def fullDirState : FSState :=
  { freeinode_ts := fun i => decide (i = 0)
    inode_table := fun i =>
      if i = 0 then ⟨T_DIRECTORY, BLOCK_SIZE, 0, fun _ => -1⟩ else ⟨T_FILE, 0, 0, fun _ => 0⟩
    free_blocks := fun b => decide (b = 0)
    fs_data := fun _ => 0
    free_open_file_entries := fun _ => false
    of_inumber := fun _ => 0
    of_offset := fun _ => 0
    dir := fun _ => ⟨['x'], 5⟩ }

/-- The explicit state produced by `tfs_init()`: root directory inode 0
holding data block 0, with every root-directory entry cleared to inumber
`-1`. -/
def initFS : FSState :=
  { zeroFS with
    freeinode_ts := updF zeroFS.freeinode_ts 0 true,
    inode_table := updF zeroFS.inode_table 0 ⟨T_DIRECTORY, BLOCK_SIZE, 0, fun _ => -1⟩,
    free_blocks := updF zeroFS.free_blocks 0 true,
    dir := fun k =>
      if k < MAX_DIR_ENTRIES then ⟨(zeroFS.dir k).d_name, -1⟩ else zeroFS.dir k }

/-- `initFS` after `inode_create(T_FILE)` takes inode 1 (the state inside
`tfs_open` just before the directory entry is added). -/
def fileCreatedFS : FSState :=
  { initFS with
    freeinode_ts := updF initFS.freeinode_ts 1 true,
    inode_table := updF initFS.inode_table 1 ⟨T_FILE, 0, -1, fun _ => -1⟩ }

/-- The explicit state after `tfs_init()` followed by
`tfs_open(name, TFS_O_CREAT)` on a fresh filesystem: root inode 0
(directory, data block 0), file inode 1 (size 0, no blocks), root-directory
entry 0 mapping the (truncated) name to inumber 1, and open-file entry 0
holding inumber 1 at offset 0. -/
def createdFS (name : List Char) : FSState :=
  { freeinode_ts := fun i => decide (i ≤ 1)
    inode_table := fun i =>
      if i = 0 then ⟨T_DIRECTORY, BLOCK_SIZE, 0, fun _ => -1⟩
      else if i = 1 then ⟨T_FILE, 0, -1, fun _ => -1⟩
      else ⟨T_FILE, 0, 0, fun _ => 0⟩
    free_blocks := fun b => decide (b ≤ 0)
    fs_data := fun _ => 0
    free_open_file_entries := fun k => decide (k = 0)
    of_inumber := fun k => if k = 0 then 1 else 0
    of_offset := fun _ => 0
    dir := fun k =>
      if k = 0 then ⟨name.tail.take (MAX_FILE_NAME - 1), 1⟩
      else if k < MAX_DIR_ENTRIES then ⟨[], -1⟩ else ⟨[], 0⟩ }

/-- The state after one iteration of the direct-region write loop that
writes `twb` bytes of `buffer` (from index `bw`) at file size/offset `sz`:
if `sz` is block-aligned a fresh block `sz / BLOCK_SIZE + 1` is first
allocated, `0xFF`-filled and registered, then the bytes are copied to the
flat addresses `BLOCK_SIZE + sz ..`, and size and offset advance. -/
def dwriteNext (i f : Nat) (buffer : Nat → Nat) (bw twb sz : Nat) (s : FSState) : FSState :=
  let withIns : FSState :=
    if sz % BLOCK_SIZE = 0 then
      { s with
        free_blocks := updF s.free_blocks (sz / BLOCK_SIZE + 1) true,
        fs_data := memSet s.fs_data ((sz / BLOCK_SIZE + 1) * BLOCK_SIZE) 255 BLOCK_SIZE,
        inode_table := updF s.inode_table i
          { s.inode_table i with
            i_data_block := ((sz / BLOCK_SIZE + 1 : Nat) : Int),
            i_block := updF (s.inode_table i).i_block (sz / BLOCK_SIZE)
              ((sz / BLOCK_SIZE + 1 : Nat) : Int) } }
    else s
  { withIns with
    fs_data := memWrite withIns.fs_data (BLOCK_SIZE + sz) (fun j => buffer (bw + j)) twb,
    of_offset := updF withIns.of_offset f (sz + twb),
    inode_table := updF withIns.inode_table i
      { withIns.inode_table i with i_size := sz + twb } }

/-- The state after one iteration of the indirect-region write loop writing
`twb` bytes at size/offset `sz`: if `sz` is block-aligned a fresh block
`sz / BLOCK_SIZE + 2` is allocated, its first 256 bytes `0xFF`-filled, and
its number stored into the reference block; then the bytes are copied to
the flat addresses `2 * BLOCK_SIZE + sz ..`. -/
def iwriteNext (i f : Nat) (buffer : Nat → Nat) (bw twb sz : Nat) (s : FSState) : FSState :=
  let withIns : FSState :=
    if sz % BLOCK_SIZE = 0 then
      { s with
        free_blocks := updF s.free_blocks (sz / BLOCK_SIZE + 2) true,
        inode_table := updF s.inode_table i
          { s.inode_table i with i_data_block := ((sz / BLOCK_SIZE + 2 : Nat) : Int) },
        fs_data := storeLE4
          (memSet s.fs_data ((sz / BLOCK_SIZE + 2) * BLOCK_SIZE) 255 (BLOCK_SIZE / 4))
          (REFERENCE_BLOCK_INDEX * BLOCK_SIZE + 4 * (sz / BLOCK_SIZE + 2 - FIRST_INDIRECT_BLOCK))
          (sz / BLOCK_SIZE + 2) }
    else s
  { withIns with
    fs_data := memWrite withIns.fs_data (2 * BLOCK_SIZE + sz) (fun j => buffer (bw + j)) twb,
    of_offset := updF withIns.of_offset f (sz + twb),
    inode_table := updF withIns.inode_table i
      { withIns.inode_table i with i_size := sz + twb } }

/-- Number of data blocks occupied by the first `sz` bytes of a file
(the ceiling of `sz / BLOCK_SIZE`); in the sequential single-file scenario
the occupied direct blocks are exactly 1, ..., `blocksOf sz`. -/
def blocksOf (sz : Nat) : Nat := (sz + (BLOCK_SIZE - 1)) / BLOCK_SIZE

instance : DecidablePred sizeIndirectInv := fun s =>
  decidable_of_iff
    (∀ i < INODE_TABLE_SIZE, s.freeinode_ts i = true →
      (s.inode_table i).i_size ≤ MAX_BYTES ∧
        ((s.inode_table i).i_size ≤ MAX_BYTES_DIRECT_DATA →
          (s.inode_table i).i_block MAX_DIRECT_BLOCKS = -1))
    Iff.rfl

instance : DecidablePred sizeInv := fun s =>
  decidable_of_iff
    (∀ i < INODE_TABLE_SIZE, s.freeinode_ts i = true →
      (s.inode_table i).i_size ≤ MAX_BYTES)
    Iff.rfl

/-! Basic lemmas about the building blocks of the embedding. -/

theorem updF_self {α : Type} (f : Nat → α) (i : Nat) (v : α) : updF f i v i = v := by
  simp [updF]

theorem updF_ne {α : Type} (f : Nat → α) {i j : Nat} (v : α) (h : j ≠ i) :
    updF f i v j = f j := by
  simp [updF, h]

theorem memWrite_lo {mem : Nat → Nat} {dst : Nat} {src : Nat → Nat} {len a : Nat}
    (h : a < dst) : memWrite mem dst src len a = mem a := by
  simp only [memWrite]
  rw [if_neg]
  omega

theorem memWrite_hi {mem : Nat → Nat} {dst : Nat} {src : Nat → Nat} {len a : Nat}
    (h : dst + len ≤ a) : memWrite mem dst src len a = mem a := by
  simp only [memWrite]
  rw [if_neg]
  omega

theorem memWrite_mid {mem : Nat → Nat} {dst : Nat} {src : Nat → Nat} {len a : Nat}
    (h1 : dst ≤ a) (h2 : a < dst + len) : memWrite mem dst src len a = src (a - dst) := by
  simp only [memWrite]
  rw [if_pos ⟨h1, h2⟩]

theorem memSet_lo {mem : Nat → Nat} {dst v len a : Nat} (h : a < dst) :
    memSet mem dst v len a = mem a := by
  simp only [memSet]
  rw [if_neg]
  omega

theorem memSet_hi {mem : Nat → Nat} {dst v len a : Nat} (h : dst + len ≤ a) :
    memSet mem dst v len a = mem a := by
  simp only [memSet]
  rw [if_neg]
  omega

theorem memSet_mid {mem : Nat → Nat} {dst v len a : Nat} (h1 : dst ≤ a) (h2 : a < dst + len) :
    memSet mem dst v len a = v := by
  simp only [memSet]
  rw [if_pos ⟨h1, h2⟩]

theorem storeLE4_lo {mem : Nat → Nat} {addr v a : Nat} (h : a < addr) :
    storeLE4 mem addr v a = mem a := by
  simp only [storeLE4]
  rw [if_neg]
  omega

theorem storeLE4_hi {mem : Nat → Nat} {addr v a : Nat} (h : addr + 4 ≤ a) :
    storeLE4 mem addr v a = mem a := by
  simp only [storeLE4]
  rw [if_neg]
  omega

theorem sub64_self (a : Nat) : sub64 a a = 0 := by
  simp [sub64]

theorem sub64_of_le {a b : Nat} (h : b ≤ a) (ha : a < 18446744073709551616) :
    sub64 a b = a - b := by
  unfold sub64
  omega

theorem firstFit_none (p : Nat → Bool) :
    ∀ (cnt i : Nat), (∀ j, i ≤ j → j < i + cnt → p j = false) → firstFit p i cnt = none := by
  intro cnt
  induction cnt with
  | zero => intro i _; rfl
  | succ n ih =>
    intro i h
    unfold firstFit
    rw [h i (le_refl i) (by omega)]
    exact ih (i + 1) fun j h1 h2 => h j (by omega) (by omega)

theorem firstFit_eq (p : Nat → Bool) :
    ∀ (cnt i k : Nat), i ≤ k → k < i + cnt → (∀ j, i ≤ j → j < k → p j = false) →
      p k = true → firstFit p i cnt = some k := by
  intro cnt
  induction cnt with
  | zero => intro i k h1 h2; omega
  | succ n ih =>
    intro i k h1 h2 h3 h4
    unfold firstFit
    rcases Nat.eq_or_lt_of_le h1 with heq | hlt
    · rw [← heq] at h4
      rw [h4, heq]
      simp
    · rw [h3 i (le_refl i) hlt]
      exact ih (i + 1) k (by omega) (by omega) (fun j ha hb => h3 j (by omega) hb) h4

theorem firstFit_bounds (p : Nat → Bool) :
    ∀ (cnt i k : Nat), firstFit p i cnt = some k → i ≤ k ∧ k < i + cnt ∧ p k = true := by
  intro cnt
  induction cnt with
  | zero => intro i k h; exact absurd h (by simp [firstFit])
  | succ n ih =>
    intro i k h
    unfold firstFit at h
    by_cases hp : p i
    · rw [if_pos hp] at h
      cases h
      exact ⟨le_refl _, by omega, hp⟩
    · rw [if_neg hp] at h
      obtain ⟨a, b, c⟩ := ih (i + 1) k h
      exact ⟨by omega, by omega, c⟩

theorem cstrncmpEq_refl : ∀ (l : List Char) (n : Nat), cstrncmpEq l l n = true := by
  intro l
  induction l with
  | nil => intro n; cases n <;> rfl
  | cons a as ih =>
    intro n
    cases n with
    | zero => rfl
    | succ m =>
      unfold cstrncmpEq
      simp [ih m]

theorem get_open_file_entry_some {fh : Int} (h : valid_file_handle fh = true) :
    get_open_file_entry fh = some fh.toNat := by
  simp [get_open_file_entry, h]

theorem inode_get_some {i : Int} (h : valid_inumber i = true) : inode_get i = some i.toNat := by
  simp [inode_get, h]

theorem natCast_ne_neg_one (b : Nat) : ¬ ((b : Int) = -1) := by
  omega

theorem valid_block_number_cast {b : Nat} (h : b < DATA_BLOCKS) :
    valid_block_number (b : Int) = true := by
  unfold valid_block_number
  apply decide_eq_true
  have h2 : b < 1024 := h
  constructor
  · omega
  · show (b : Int) < 1024
    omega

theorem indirect_block_insert_ok (i : Nat) (s : FSState) (b : Nat)
    (hb : firstFit (fun j => !(s.free_blocks j)) 0 DATA_BLOCKS = some b) :
    ∃ s2, indirect_block_insert i s = (0, s2) ∧
      (s2.inode_table i).i_data_block = (b : Int) ∧
      s2.of_offset = s.of_offset := by
  unfold indirect_block_insert data_block_alloc
  rw [hb]
  dsimp only
  rw [if_neg (natCast_ne_neg_one b)]
  by_cases hcond : valid_block_number ((s.inode_table i).i_block MAX_DIRECT_BLOCKS) = true ∧
      FIRST_INDIRECT_BLOCK ≤ ((b : Int)).toNat
  · rw [if_pos hcond]
    exact ⟨_, rfl, by simp [updF], rfl⟩
  · rw [if_neg hcond]
    exact ⟨_, rfl, by simp [updF], rfl⟩

theorem read_at_eof (s : FSState) (fh : Int) (dest : Nat → Nat) (len : Nat)
    (hlen : len ≠ 0) (hfh : valid_file_handle fh = true)
    (hin : valid_inumber (s.of_inumber fh.toNat) = true)
    (hoff : s.of_offset fh.toNat = (s.inode_table (s.of_inumber fh.toNat).toNat).i_size) :
    tfs_read fh dest len s = (0, dest, s) := by
  unfold tfs_read
  rw [if_neg hlen, get_open_file_entry_some hfh]
  dsimp only
  rw [inode_get_some hin]
  dsimp only
  rw [← hoff, sub64_self]
  rw [if_neg (by omega : ¬ (0 : Nat) > len)]
  by_cases hc : s.of_offset fh.toNat + 0 ≤ MAX_BYTES_DIRECT_DATA
  · rw [if_pos hc]
    unfold tfs_read_direct_region
    rw [if_pos hc]
    unfold readDirectLoop
    simp
  · rw [if_neg hc, if_pos (by omega : s.of_offset fh.toNat ≥ MAX_BYTES_DIRECT_DATA)]
    unfold tfs_read_indirect_region readIndirectLoop
    simp

/-- C9: for every in-range handle whose open-file entry offset equals the
size of the inode it references, `tfs_read` with a positive length returns 0
(end of file is not reported as -1), copies no bytes into the destination
buffer, and leaves the entire state - in particular the offset - unchanged. -/
theorem C9_read_at_end_of_file (s : FSState) (fh : Int) (dest : Nat → Nat) (len : Nat)
    (hlen : 0 < len) (hfh : valid_file_handle fh = true)
    (hin : valid_inumber (s.of_inumber fh.toNat) = true)
    (hoff : s.of_offset fh.toNat = (s.inode_table (s.of_inumber fh.toNat).toNat).i_size) :
    tfs_read fh dest len s = (0, dest, s) :=
  read_at_eof s fh dest len (by omega) hfh hin hoff

/-- Witness for C9: handle 0 of `fullFileState` sits at end of file; a
100-byte read returns 0 and changes nothing. -/
theorem C9_read_at_end_of_file_witness :
    tfs_read 0 (fun _ => 7) 100 fullFileState = (0, (fun _ => 7), fullFileState) :=
  C9_read_at_end_of_file fullFileState 0 (fun _ => 7) 100 (by norm_num) (by decide)
    (by decide) (by decide)

/-- C5: a write of one or more further bytes through a handle of a file
whose size already equals `MAX_BYTES` returns 0 written bytes, not -1,
provided the block allocation the write path still performs can succeed
(a -1 arises only from a block-allocation or block-fetch failure). -/
theorem C5_write_clamped_at_max (s : FSState) (fh : Int) (buf : Nat → Nat) (n : Nat)
    (hn : 0 < n) (hfh : valid_file_handle fh = true)
    (hin : valid_inumber (s.of_inumber fh.toNat) = true)
    (hsz : (s.inode_table (s.of_inumber fh.toNat).toNat).i_size = MAX_BYTES)
    (hib : ¬ (s.inode_table (s.of_inumber fh.toNat).toNat).i_block MAX_DIRECT_BLOCKS = -1)
    (halloc : ∃ b, firstFit (fun j => !(s.free_blocks j)) 0 DATA_BLOCKS = some b) :
    (tfs_write fh buf n s).1 = 0 := by
  obtain ⟨b, hb⟩ := halloc
  have hblt : b < DATA_BLOCKS := by
    have h := (firstFit_bounds _ _ _ _ hb).2.1
    omega
  obtain ⟨s2, hins, hdb, hoff⟩ := indirect_block_insert_ok (s.of_inumber fh.toNat).toNat s b hb
  unfold tfs_write
  rw [if_neg (by omega : ¬ n = 0), get_open_file_entry_some hfh]
  dsimp only
  rw [inode_get_some hin]
  dsimp only
  rw [hsz]
  rw [if_neg (show ¬ (MAX_BYTES + n ≤ MAX_BYTES_DIRECT_DATA) by
    show ¬ (272384 + n ≤ 10240); omega)]
  rw [if_pos (show (MAX_BYTES : Nat) ≥ MAX_BYTES_DIRECT_DATA by norm_num)]
  rw [if_neg hib]
  unfold tfs_write_indirect_region
  obtain ⟨m, rfl⟩ : ∃ m, n = m + 1 := ⟨n - 1, by omega⟩
  unfold writeIndirectLoop
  rw [if_neg (by omega : ¬ m + 1 = 0)]
  dsimp only
  rw [hsz]
  rw [if_pos (show (MAX_BYTES : Nat) + (m + 1) > MAX_BYTES by omega), sub64_self]
  rw [if_pos (show (MAX_BYTES : Nat) % BLOCK_SIZE = 0 by norm_num)]
  rw [hins]
  dsimp only
  rw [if_neg (by omega : ¬ (0 : Int) = -1)]
  rw [hdb]
  rw [if_neg (not_not_intro (valid_block_number_cast hblt))]
  rw [if_neg (show ¬ ((0:Nat) ≥ BLOCK_SIZE ∨ BLOCK_SIZE - s2.of_offset fh.toNat % BLOCK_SIZE < 0) by
    show ¬ ((0:Nat) ≥ 1024 ∨ 1024 - s2.of_offset fh.toNat % 1024 < 0); omega)]
  dsimp only
  unfold writeIndirectLoop
  rw [if_pos rfl]
  simp

/-- Witness for C5: on `fullFileState` (file of size `MAX_BYTES`, block 268
free) a 1-byte write through handle 0 returns 0. -/
theorem C5_write_clamped_at_max_witness :
    (tfs_write 0 (fun _ => 9) 1 fullFileState).1 = 0 :=
  C5_write_clamped_at_max fullFileState 0 (fun _ => 9) 1 (by norm_num) (by decide)
    (by decide) (by decide) (by decide) ⟨268, by decide⟩

/-- C10: `get_open_file_entry` returns the entry for every handle in
`[0, MAX_OPEN_FILES)` without consulting the occupancy bitmap; consequently
`tfs_write` and `tfs_read` invoked on an in-range handle that has already
been closed are not rejected with -1 on account of the entry being free: on
`c10Closed` (handle 0 closed after writing 5 bytes to a fresh file) the
5-byte write returns 5 and the read returns 0. -/
theorem C10_entry_access_ignores_occupancy :
    (∀ fh : Int, 0 ≤ fh → fh < MAX_OPEN_FILES → get_open_file_entry fh = some fh.toNat) ∧
    c10Closed.free_open_file_entries 0 = false ∧
    (tfs_write 0 (fun j => 104 + j) 5 c10Closed).1 = 5 ∧
    (tfs_read 0 (fun _ => 0) 5 c10Closed).1 = 0 := by
  refine ⟨fun fh h1 h2 => get_open_file_entry_some ?_, by decide, by decide, by decide⟩
  unfold valid_file_handle
  exact decide_eq_true ⟨h1, h2⟩

/-- Witness for C10 at handle 3. -/
theorem C10_entry_access_ignores_occupancy_witness :
    get_open_file_entry 3 = some 3 ∧ (tfs_write 0 (fun j => 104 + j) 5 c10Closed).1 = 5 := by
  have h := C10_entry_access_ignores_occupancy
  exact ⟨h.1 3 (by norm_num) (by norm_num), h.2.2.1⟩

/-- Counterexample to C2 as stated: in `twoFileState` (files `/a` and `/b`
written alternately, one byte each) the byte at offset 0 of `/b` was stored
in data block 2 (value 121), yet `/b`'s direct slot `i_block[0 / BLOCK_SIZE]`
is unassigned (-1) - the block was registered in slot 1 - and the read path
accesses block `0 / BLOCK_SIZE + 1 = 1`, returning `/a`'s byte 120 instead
of 121. -/
theorem C2_counterexample :
    (twoFileState.inode_table 2).i_block 0 = -1 ∧
    twoFileState.fs_data (2 * BLOCK_SIZE) = 121 ∧
    twoFileRead.1 = 1 ∧
    twoFileRead.2.1 0 = 120 ∧
    ¬ twoFileRead.2.1 0 = 121 :=
  ⟨by decide, by decide, by decide, by decide, by decide⟩

/-- Counterexample to C3 as stated: after writing 1500 bytes from offset 0
to a fresh file, byte 477 of the second data block holds 255 (the write path
fills a newly allocated block with `0xFF` via `memset(block, -1,
BLOCK_SIZE)`), not 0. -/
theorem C3_counterexample :
    (postWrite ['/', 'a'] (fun _ => 88) 1500).2.fs_data (2 * BLOCK_SIZE + 477) = 255 ∧
    ¬ (postWrite ['/', 'a'] (fun _ => 88) 1500).2.fs_data (2 * BLOCK_SIZE + 477) = 0 :=
  ⟨by decide, by decide⟩

/-- Counterexample to C4 as stated: the state `c4Write.2` (fresh file of
size 10241, indirect block 11 allocated) satisfies the claimed invariant,
but the public operation `open("/a", TFS_O_TRUNC)` yields a state that
violates it: the file's size becomes 0 (at most `MAX_BYTES_DIRECT_DATA`)
while `i_block[10]` still holds block 11. -/
theorem C4_counterexample :
    sizeIndirectInv c4Write.2 ∧ c4Trunc.1 = 1 ∧ ¬ sizeIndirectInv c4Trunc.2 ∧
    (c4Trunc.2.inode_table 1).i_size = 0 ∧
    (c4Trunc.2.inode_table 1).i_block MAX_DIRECT_BLOCKS = 11 :=
  ⟨by decide, by decide, by decide, by decide, by decide⟩

theorem add_to_open_file_table_cases (inumber : Int) (offset : Nat) (s : FSState) :
    (∃ k, k < MAX_OPEN_FILES ∧
      add_to_open_file_table inumber offset s =
        ((k : Int), { s with
          free_open_file_entries := updF s.free_open_file_entries k true,
          of_inumber := updF s.of_inumber k inumber,
          of_offset := updF s.of_offset k offset })) ∨
    add_to_open_file_table inumber offset s = (-1, s) := by
  unfold add_to_open_file_table
  cases hf : firstFit (fun i => !s.free_open_file_entries i) 0 MAX_OPEN_FILES with
  | none => right; rfl
  | some k =>
    left
    refine ⟨k, ?_, rfl⟩
    have h := (firstFit_bounds _ _ _ _ hf).2.1
    omega

theorem valid_inumber_cast {i : Nat} (h : i < INODE_TABLE_SIZE) :
    valid_inumber (i : Int) = true := by
  unfold valid_inumber
  apply decide_eq_true
  have h2 : i < 50 := h
  constructor
  · omega
  · show (i : Int) < 50
    omega

/-- C6: opening an existing file (resolved to `inum` with positive size and
a valid working block) with the `TFS_O_TRUNC` flag frees the working data
block and sets the inode's size to 0; if the open returns a handle, a
subsequent positive-length read through that handle returns 0 and changes
nothing. -/
theorem C6_truncate_on_open (s : FSState) (name : List Char) (flags : Nat) (inum : Int)
    (hv : valid_pathname name = true)
    (hlook : tfs_lookup name s = inum)
    (h0 : 0 ≤ inum)
    (hin : valid_inumber inum = true)
    (hT : flags &&& TFS_O_TRUNC ≠ 0)
    (hsz : 0 < (s.inode_table inum.toNat).i_size)
    (hdb : valid_block_number ((s.inode_table inum.toNat).i_data_block) = true) :
    ((tfs_open name flags s).2.inode_table inum.toNat).i_size = 0 ∧
    (tfs_open name flags s).2.free_blocks ((s.inode_table inum.toNat).i_data_block).toNat = false ∧
    (0 ≤ (tfs_open name flags s).1 → ∀ (dest : Nat → Nat) (len : Nat), 0 < len →
      tfs_read (tfs_open name flags s).1 dest len (tfs_open name flags s).2 =
        (0, dest, (tfs_open name flags s).2)) := by
  have hopen : tfs_open name flags s =
      add_to_open_file_table inum 0
        { s with
          free_blocks := updF s.free_blocks ((s.inode_table inum.toNat).i_data_block).toNat false,
          inode_table := updF s.inode_table inum.toNat
            { s.inode_table inum.toNat with i_size := 0 } } := by
    unfold tfs_open
    rw [if_neg (by simp [hv]), hlook, if_pos h0, inode_get_some hin]
    dsimp only
    rw [if_pos hT, if_pos hsz]
    unfold data_block_free
    rw [if_pos hdb]
    dsimp only
    rw [if_neg (by omega : ¬ (0 : Int) = -1)]
    by_cases happ : flags &&& TFS_O_APPEND ≠ 0
    · rw [if_pos happ]
      simp [updF]
    · rw [if_neg happ]
      simp [updF]
  rcases add_to_open_file_table_cases inum 0
      { s with
        free_blocks := updF s.free_blocks ((s.inode_table inum.toNat).i_data_block).toNat false,
        inode_table := updF s.inode_table inum.toNat
          { s.inode_table inum.toNat with i_size := 0 } } with ⟨k, hk, heq⟩ | heq
  · rw [hopen, heq]
    refine ⟨by simp [updF], by simp [updF], ?_⟩
    intro _ dest len hlen
    apply read_at_eof
    · omega
    · unfold valid_file_handle
      apply decide_eq_true
      constructor
      · omega
      · show (k : Int) < 20
        have hk2 : k < 20 := hk
        omega
    · simp only [Int.toNat_natCast]
      simp only [updF_self]
      exact hin
    · simp only [Int.toNat_natCast]
      simp only [updF_self]
  · rw [hopen, heq]
    refine ⟨by simp [updF], by simp [updF], ?_⟩
    intro hge
    omega

/-- Witness for C6: the truncating open of `/a` on `c10Closed` (where `/a`
has size 5 and working block 1) leaves size 0, block 1 free, and a 3-byte
read through the fresh handle returns 0. -/
theorem C6_truncate_on_open_witness :
    ((tfs_open ['/', 'a'] TFS_O_TRUNC c10Closed).2.inode_table (1 : Int).toNat).i_size = 0 ∧
    (tfs_open ['/', 'a'] TFS_O_TRUNC c10Closed).2.free_blocks 1 = false ∧
    tfs_read (tfs_open ['/', 'a'] TFS_O_TRUNC c10Closed).1 (fun _ => 4) 3
        (tfs_open ['/', 'a'] TFS_O_TRUNC c10Closed).2 =
      (0, (fun _ => 4), (tfs_open ['/', 'a'] TFS_O_TRUNC c10Closed).2) := by
  have h := C6_truncate_on_open c10Closed ['/', 'a'] TFS_O_TRUNC 1 (by decide) (by decide)
    (by decide) (by decide) (by decide) (by decide) (by decide)
  exact ⟨h.1, h.2.1, h.2.2 (by decide) (fun _ => 4) 3 (by norm_num)⟩

/-- C7: when `tfs_open` with the `CREATE` flag on a valid, unresolvable path
creates an inode (first-fit slot `inum`) but the root-directory entry cannot
be added (every slot of the full root directory is occupied), the freshly
created inode is deleted again - the allocation bitmap is exactly as before -
and the open returns -1 with no other state change (allocation maps, data
blocks, directory, open-file table and all other inodes are untouched; only
the scratch fields of the freed slot `inum` differ). -/
theorem C7_create_rollback (s : FSState) (name : List Char) (flags : Nat) (inum : Nat)
    (hv : valid_pathname name = true)
    (hlook : tfs_lookup name s = -1)
    (hC : flags &&& TFS_O_CREAT ≠ 0)
    (hcr : firstFit (fun i => !(s.freeinode_ts i)) 0 INODE_TABLE_SIZE = some inum)
    (hroot_taken : s.freeinode_ts 0 = true)
    (hroot : (s.inode_table 0).i_node_type = T_DIRECTORY)
    (hrdb : valid_block_number ((s.inode_table 0).i_data_block) = true)
    (hfull : ∀ k, k < MAX_DIR_ENTRIES → ¬ (s.dir k).d_inumber = -1) :
    (tfs_open name flags s).1 = -1 ∧
    (∀ i, (tfs_open name flags s).2.freeinode_ts i = s.freeinode_ts i) ∧
    (tfs_open name flags s).2.free_blocks = s.free_blocks ∧
    (tfs_open name flags s).2.fs_data = s.fs_data ∧
    (tfs_open name flags s).2.dir = s.dir ∧
    (tfs_open name flags s).2.free_open_file_entries = s.free_open_file_entries ∧
    (tfs_open name flags s).2.of_inumber = s.of_inumber ∧
    (tfs_open name flags s).2.of_offset = s.of_offset ∧
    (∀ j, j ≠ inum → (tfs_open name flags s).2.inode_table j = s.inode_table j) := by
  obtain ⟨-, hlt, hp⟩ := firstFit_bounds _ _ _ _ hcr
  have hfree : s.freeinode_ts inum = false := by
    revert hp
    cases s.freeinode_ts inum <;> simp
  have hne0 : inum ≠ 0 := fun h => by rw [h, hroot_taken] at hfree; exact absurd hfree (by simp)
  have hlt50 : inum < INODE_TABLE_SIZE := by omega
  have htail : ¬ name.tail.length = 0 := by
    have h1 : 1 < name.length := by
      have h2 := hv
      unfold valid_pathname at h2
      simp at h2
      omega
    simp [List.length_tail]
    omega
  have hopen : tfs_open name flags s =
      (-1, { s with
        freeinode_ts := updF (updF s.freeinode_ts inum true) inum false,
        inode_table := updF s.inode_table inum ⟨T_FILE, 0, -1, fun _ => -1⟩ }) := by
    unfold tfs_open
    rw [if_neg (by simp [hv]), hlook]
    rw [if_neg (by omega : ¬ (0 : Int) ≤ -1), if_pos hC]
    unfold inode_create
    rw [hcr]
    dsimp only
    rw [if_neg (natCast_ne_neg_one inum)]
    unfold add_dir_entry
    rw [if_neg (not_not_intro ⟨by decide, valid_inumber_cast hlt50⟩)]
    simp only [Int.toNat_natCast, Int.toNat_zero]
    rw [updF_ne _ _ (Ne.symm hne0)]
    rw [if_neg (not_not_intro hroot)]
    rw [if_neg htail]
    rw [if_neg (not_not_intro hrdb)]
    rw [firstFit_none _ _ _ (fun k h1 h2 =>
      beq_eq_false_iff_ne.mpr (hfull k (by omega)))]
    dsimp only
    rw [if_pos rfl]
    unfold inode_delete
    simp only [Int.toNat_natCast]
    rw [if_pos ⟨valid_inumber_cast hlt50, by simp [updF]⟩]
    rw [updF_self]
    dsimp only
    rw [if_neg (by omega : ¬ (0 : Nat) > 0)]
  rw [hopen]
  refine ⟨rfl, ?_, rfl, rfl, rfl, rfl, rfl, rfl, ?_⟩
  · intro i2
    by_cases h : i2 = inum
    · subst h
      simp [updF, hfree]
    · simp [updF, h]
  · intro j hj
    simp [updF, hj]

/-- Witness for C7: creating `/q` on `fullDirState` (root directory full)
fails with -1 and slot 1, taken and released in between, reads as free
again; the directory is unchanged. -/
theorem C7_create_rollback_witness :
    (tfs_open ['/', 'q'] TFS_O_CREAT fullDirState).1 = -1 ∧
    (tfs_open ['/', 'q'] TFS_O_CREAT fullDirState).2.freeinode_ts 1 =
      fullDirState.freeinode_ts 1 ∧
    (tfs_open ['/', 'q'] TFS_O_CREAT fullDirState).2.dir = fullDirState.dir := by
  have h := C7_create_rollback fullDirState ['/', 'q'] TFS_O_CREAT 1 (by decide) (by decide)
    (by decide) (by decide) (by decide) (by decide) (by decide)
    (fun k hk => by interval_cases k <;> decide)
  exact ⟨h.1, h.2.1 1, h.2.2.2.2.1⟩

theorem sizeInv_mono {s s2 : FSState}
    (hf : ∀ j, s2.freeinode_ts j = s.freeinode_ts j)
    (hsz : ∀ j, (s2.inode_table j).i_size = (s.inode_table j).i_size)
    (h : sizeInv s) : sizeInv s2 := by
  intro j hj ht
  rw [hsz j]
  exact h j hj (by rw [← hf]; exact ht)

theorem direct_block_insert_frame (i : Nat) (s : FSState) :
    (∀ j, (direct_block_insert i s).2.freeinode_ts j = s.freeinode_ts j) ∧
    (∀ j, ((direct_block_insert i s).2.inode_table j).i_size = (s.inode_table j).i_size) := by
  unfold direct_block_insert data_block_alloc
  cases hf : firstFit (fun i => !s.free_blocks i) 0 DATA_BLOCKS with
  | none =>
    dsimp only
    split
    · exact ⟨fun j => rfl, fun j => by by_cases h : j = i <;> simp [updF, h]⟩
    · exact ⟨fun j => rfl, fun j => by by_cases h : j = i <;> simp [updF, h]⟩
  | some b =>
    dsimp only
    split
    · exact ⟨fun j => rfl, fun j => by by_cases h : j = i <;> simp [updF, h]⟩
    · exact ⟨fun j => rfl, fun j => by by_cases h : j = i <;> simp [updF, h]⟩

theorem indirect_block_insert_frame (i : Nat) (s : FSState) :
    (∀ j, (indirect_block_insert i s).2.freeinode_ts j = s.freeinode_ts j) ∧
    (∀ j, ((indirect_block_insert i s).2.inode_table j).i_size = (s.inode_table j).i_size) := by
  unfold indirect_block_insert data_block_alloc
  cases hf : firstFit (fun i => !s.free_blocks i) 0 DATA_BLOCKS with
  | none =>
    dsimp only
    split
    · exact ⟨fun j => rfl, fun j => rfl⟩
    · split
      · exact ⟨fun j => rfl, fun j => by by_cases h : j = i <;> simp [updF, h]⟩
      · exact ⟨fun j => rfl, fun j => by by_cases h : j = i <;> simp [updF, h]⟩
  | some b =>
    dsimp only
    split
    · exact ⟨fun j => rfl, fun j => rfl⟩
    · split
      · exact ⟨fun j => rfl, fun j => by by_cases h : j = i <;> simp [updF, h]⟩
      · exact ⟨fun j => rfl, fun j => by by_cases h : j = i <;> simp [updF, h]⟩

theorem tfs_handle_indirect_block_frame (i : Nat) (s : FSState) :
    (∀ j, (tfs_handle_indirect_block i s).2.freeinode_ts j = s.freeinode_ts j) ∧
    (∀ j, ((tfs_handle_indirect_block i s).2.inode_table j).i_size = (s.inode_table j).i_size) := by
  unfold tfs_handle_indirect_block data_block_alloc
  cases hf : firstFit (fun i => !s.free_blocks i) 0 DATA_BLOCKS with
  | none =>
    dsimp only
    split
    · exact ⟨fun j => rfl, fun j => rfl⟩
    · exact ⟨fun j => rfl, fun j => by by_cases h : j = i <;> simp [updF, h]⟩
  | some b =>
    dsimp only
    split
    · exact ⟨fun j => rfl, fun j => rfl⟩
    · exact ⟨fun j => rfl, fun j => by by_cases h : j = i <;> simp [updF, h]⟩

theorem writeDirectLoop_sizes (i f : Nat) (buf : Nat → Nat) :
    ∀ (fuel ws bw : Nat) (s : FSState),
      (∀ j, (writeDirectLoop i f buf fuel ws bw s).2.freeinode_ts j = s.freeinode_ts j) ∧
      (∀ j, j ≠ i → ((writeDirectLoop i f buf fuel ws bw s).2.inode_table j).i_size =
        (s.inode_table j).i_size) ∧
      ((writeDirectLoop i f buf fuel ws bw s).2.inode_table i).i_size ≤
        (s.inode_table i).i_size + ws := by
  intro fuel
  induction fuel with
  | zero =>
    intro ws bw s
    unfold writeDirectLoop
    exact ⟨fun j => rfl, fun j _ => rfl, Nat.le_add_right _ _⟩
  | succ n ih =>
    intro ws bw s
    unfold writeDirectLoop
    by_cases hws : ws = 0
    · rw [if_pos hws]
      exact ⟨fun j => rfl, fun j _ => rfl, Nat.le_add_right _ _⟩
    rw [if_neg hws]
    obtain ⟨r1, s1, hq, hfr, hsz⟩ :
        ∃ r1 s1, (if (s.inode_table i).i_size % BLOCK_SIZE = 0
            then direct_block_insert i s else ((0 : Int), s)) = (r1, s1) ∧
          (∀ j, s1.freeinode_ts j = s.freeinode_ts j) ∧
          (∀ j, (s1.inode_table j).i_size = (s.inode_table j).i_size) := by
      by_cases hc : (s.inode_table i).i_size % BLOCK_SIZE = 0
      · rw [if_pos hc]
        exact ⟨_, _, rfl, (direct_block_insert_frame i s).1, (direct_block_insert_frame i s).2⟩
      · rw [if_neg hc]
        exact ⟨0, s, rfl, fun j => rfl, fun j => rfl⟩
    rw [hq]
    dsimp only
    by_cases hr1 : r1 = -1
    · rw [if_pos hr1]
      refine ⟨hfr, fun j _ => (hsz j), ?_⟩
      dsimp only
      have h4 := hsz i
      omega
    rw [if_neg hr1]
    by_cases hdb : ¬ valid_block_number ((s1.inode_table i).i_data_block) = true
    · rw [if_pos hdb]
      refine ⟨hfr, fun j _ => (hsz j), ?_⟩
      dsimp only
      have h4 := hsz i
      omega
    rw [if_neg hdb]
    by_cases hcopy : ws ≥ BLOCK_SIZE ∨
        BLOCK_SIZE - s1.of_offset f % BLOCK_SIZE < ws
    · rw [if_pos hcopy]
      set twb := BLOCK_SIZE - s1.of_offset f % BLOCK_SIZE with htwb
      have hB : (BLOCK_SIZE : Nat) = 1024 := rfl
      have htle : twb ≤ ws := by
        rcases hcopy with h | h <;> omega
      obtain ⟨h1, h2, h3⟩ := ih (ws - twb) (bw + twb) _
      refine ⟨?_, ?_, ?_⟩
      · intro j
        rw [h1 j]
        exact hfr j
      · intro j hj
        rw [h2 j hj]
        simp only [updF_ne _ _ hj]
        exact hsz j
      · refine le_trans h3 ?_
        simp only [updF_self]
        rw [hsz i]
        omega
    · rw [if_neg hcopy]
      dsimp only
      obtain ⟨h1, h2, h3⟩ := ih 0 (bw + ws) _
      refine ⟨?_, ?_, ?_⟩
      · intro j
        rw [h1 j]
        exact hfr j
      · intro j hj
        rw [h2 j hj]
        simp only [updF_ne _ _ hj]
        exact hsz j
      · refine le_trans h3 ?_
        simp only [updF_self]
        rw [hsz i]
        omega

theorem writeIndirectLoop_sizes (i f : Nat) (buf : Nat → Nat) :
    ∀ (fuel ws bw : Nat) (s : FSState),
      (∀ j, (writeIndirectLoop i f buf fuel ws bw s).2.freeinode_ts j = s.freeinode_ts j) ∧
      (∀ j, j ≠ i → ((writeIndirectLoop i f buf fuel ws bw s).2.inode_table j).i_size =
        (s.inode_table j).i_size) ∧
      ((s.inode_table i).i_size ≤ MAX_BYTES →
        ((writeIndirectLoop i f buf fuel ws bw s).2.inode_table i).i_size ≤ MAX_BYTES) := by
  intro fuel
  induction fuel with
  | zero =>
    intro ws bw s
    unfold writeIndirectLoop
    exact ⟨fun j => rfl, fun j _ => rfl, fun hle => hle⟩
  | succ n ih =>
    intro ws bw s
    unfold writeIndirectLoop
    by_cases hws : ws = 0
    · rw [if_pos hws]
      exact ⟨fun j => rfl, fun j _ => rfl, fun hle => hle⟩
    rw [if_neg hws]
    dsimp only
    have hMB : (MAX_BYTES : Nat) = 272384 := rfl
    have hB : (BLOCK_SIZE : Nat) = 1024 := rfl
    obtain ⟨ws1, hws1eq, hkey⟩ :
        ∃ ws1, (if (s.inode_table i).i_size + ws > MAX_BYTES
            then sub64 MAX_BYTES (s.inode_table i).i_size else ws) = ws1 ∧
          ((s.inode_table i).i_size ≤ MAX_BYTES →
            (s.inode_table i).i_size + ws1 ≤ MAX_BYTES) := by
      by_cases hcl : (s.inode_table i).i_size + ws > MAX_BYTES
      · rw [if_pos hcl]
        refine ⟨_, rfl, fun hle => ?_⟩
        rw [sub64_of_le hle (by norm_num)]
        omega
      · rw [if_neg hcl]
        exact ⟨ws, rfl, fun _ => by omega⟩
    rw [hws1eq]
    obtain ⟨r1, s1, hq, hfr, hsz⟩ :
        ∃ r1 s1, (if (s.inode_table i).i_size % BLOCK_SIZE = 0
            then indirect_block_insert i s else ((0 : Int), s)) = (r1, s1) ∧
          (∀ j, s1.freeinode_ts j = s.freeinode_ts j) ∧
          (∀ j, (s1.inode_table j).i_size = (s.inode_table j).i_size) := by
      by_cases hc : (s.inode_table i).i_size % BLOCK_SIZE = 0
      · rw [if_pos hc]
        exact ⟨_, _, rfl, (indirect_block_insert_frame i s).1, (indirect_block_insert_frame i s).2⟩
      · rw [if_neg hc]
        exact ⟨0, s, rfl, fun j => rfl, fun j => rfl⟩
    rw [hq]
    dsimp only
    by_cases hr1 : r1 = -1
    · rw [if_pos hr1]
      refine ⟨hfr, fun j _ => (hsz j), fun hle => ?_⟩
      dsimp only
      have h4 := hsz i
      omega
    rw [if_neg hr1]
    by_cases hdb : ¬ valid_block_number ((s1.inode_table i).i_data_block) = true
    · rw [if_pos hdb]
      refine ⟨hfr, fun j _ => (hsz j), fun hle => ?_⟩
      dsimp only
      have h4 := hsz i
      omega
    rw [if_neg hdb]
    by_cases hcopy : ws1 ≥ BLOCK_SIZE ∨
        BLOCK_SIZE - s1.of_offset f % BLOCK_SIZE < ws1
    · rw [if_pos hcopy]
      set twb := BLOCK_SIZE - s1.of_offset f % BLOCK_SIZE with htwb
      have htle : twb ≤ ws1 := by
        rcases hcopy with h | h <;> omega
      have step := ih (ws1 - twb) (bw + twb)
        { s1 with
          fs_data := memWrite s1.fs_data
            (((s1.inode_table i).i_data_block).toNat * BLOCK_SIZE + s1.of_offset f % BLOCK_SIZE)
            (fun j => buf (bw + j)) twb,
          of_offset := updF s1.of_offset f (s1.of_offset f + twb),
          inode_table := updF s1.inode_table i
            { s1.inode_table i with i_size := (s1.inode_table i).i_size + twb } }
      exact ⟨fun j => (step.1 j).trans (hfr j),
             fun j hj => (step.2.1 j hj).trans
               (by simp only [updF_ne _ _ hj]; exact hsz j),
             fun hle => step.2.2
               (by simp only [updF_self]
                   have h4 := hsz i
                   have h5 := hkey hle
                   omega)⟩
    · rw [if_neg hcopy]
      have step := ih 0 (bw + ws1)
        { s1 with
          fs_data := memWrite s1.fs_data
            (((s1.inode_table i).i_data_block).toNat * BLOCK_SIZE + s1.of_offset f % BLOCK_SIZE)
            (fun j => buf (bw + j)) ws1,
          of_offset := updF s1.of_offset f (s1.of_offset f + ws1),
          inode_table := updF s1.inode_table i
            { s1.inode_table i with i_size := (s1.inode_table i).i_size + ws1 } }
      exact ⟨fun j => (step.1 j).trans (hfr j),
             fun j hj => (step.2.1 j hj).trans
               (by simp only [updF_ne _ _ hj]; exact hsz j),
             fun hle => step.2.2
               (by simp only [updF_self]
                   have h4 := hsz i
                   have h5 := hkey hle
                   omega)⟩

theorem readDirectLoop_frame (f base : Nat) :
    ∀ (fuel tr total : Nat) (dest : Nat → Nat) (s : FSState),
      (readDirectLoop f base fuel tr total dest s).2.2.inode_table = s.inode_table ∧
      (readDirectLoop f base fuel tr total dest s).2.2.freeinode_ts = s.freeinode_ts := by
  intro fuel
  induction fuel with
  | zero =>
    intro tr total dest s
    unfold readDirectLoop
    exact ⟨rfl, rfl⟩
  | succ n ih =>
    intro tr total dest s
    unfold readDirectLoop
    dsimp only
    split
    · exact ⟨rfl, rfl⟩
    · split
      · exact ⟨rfl, rfl⟩
      · exact ih _ _ _ _

theorem readIndirectLoop_frame (f base : Nat) :
    ∀ (fuel tr total : Nat) (dest : Nat → Nat) (s : FSState),
      (readIndirectLoop f base fuel tr total dest s).2.2.inode_table = s.inode_table ∧
      (readIndirectLoop f base fuel tr total dest s).2.2.freeinode_ts = s.freeinode_ts := by
  intro fuel
  induction fuel with
  | zero =>
    intro tr total dest s
    unfold readIndirectLoop
    exact ⟨rfl, rfl⟩
  | succ n ih =>
    intro tr total dest s
    unfold readIndirectLoop
    dsimp only
    split
    · exact ⟨rfl, rfl⟩
    · split
      · exact ⟨rfl, rfl⟩
      · exact ih _ _ _ _

theorem tfs_read_frame (fh : Int) (dest : Nat → Nat) (len : Nat) (s : FSState) :
    (tfs_read fh dest len s).2.2.inode_table = s.inode_table ∧
    (tfs_read fh dest len s).2.2.freeinode_ts = s.freeinode_ts := by
  have hd : ∀ (f base tr : Nat) (d : Nat → Nat) (s1 : FSState),
      (tfs_read_direct_region f base tr d s1).2.2.inode_table = s1.inode_table ∧
      (tfs_read_direct_region f base tr d s1).2.2.freeinode_ts = s1.freeinode_ts := by
    intro f base tr d s1
    unfold tfs_read_direct_region
    split
    · exact readDirectLoop_frame _ _ _ _ _ _ _
    · exact ⟨rfl, rfl⟩
  have hi : ∀ (f base tr : Nat) (d : Nat → Nat) (s1 : FSState),
      (tfs_read_indirect_region f base tr d s1).2.2.inode_table = s1.inode_table ∧
      (tfs_read_indirect_region f base tr d s1).2.2.freeinode_ts = s1.freeinode_ts :=
    fun f base tr d s1 => readIndirectLoop_frame _ _ _ _ _ _ _
  unfold tfs_read
  dsimp only
  split
  · exact ⟨rfl, rfl⟩
  split
  · exact ⟨rfl, rfl⟩
  split
  · exact ⟨rfl, rfl⟩
  split
  all_goals
    split
    · exact hd _ _ _ _ _
    split
    · exact hi _ _ _ _ _
    split
    all_goals
      split
      · exact ⟨(hd _ _ _ _ _).1, (hd _ _ _ _ _).2⟩
      split
      · exact ⟨((hi _ _ _ _ _).1).trans (hd _ _ _ _ _).1,
          ((hi _ _ _ _ _).2).trans (hd _ _ _ _ _).2⟩
      · exact ⟨((hi _ _ _ _ _).1).trans (hd _ _ _ _ _).1,
          ((hi _ _ _ _ _).2).trans (hd _ _ _ _ _).2⟩

theorem tfs_handle_if_frame (i : Nat) (s : FSState) :
    ∃ s1, (if (s.inode_table i).i_block MAX_DIRECT_BLOCKS = -1
        then (tfs_handle_indirect_block i s).2 else s) = s1 ∧
      (∀ j, s1.freeinode_ts j = s.freeinode_ts j) ∧
      (∀ j, (s1.inode_table j).i_size = (s.inode_table j).i_size) := by
  by_cases hc : (s.inode_table i).i_block MAX_DIRECT_BLOCKS = -1
  · rw [if_pos hc]
    exact ⟨_, rfl, (tfs_handle_indirect_block_frame i s).1,
      (tfs_handle_indirect_block_frame i s).2⟩
  · rw [if_neg hc]
    exact ⟨s, rfl, fun _ => rfl, fun _ => rfl⟩

theorem tfs_write_direct_region_sizes (i f : Nat) (buf : Nat → Nat) (ws : Nat) (s : FSState) :
    (∀ j, (tfs_write_direct_region i f buf ws s).2.freeinode_ts j = s.freeinode_ts j) ∧
    (∀ j, j ≠ i → ((tfs_write_direct_region i f buf ws s).2.inode_table j).i_size =
      (s.inode_table j).i_size) ∧
    ((tfs_write_direct_region i f buf ws s).2.inode_table i).i_size ≤
      (s.inode_table i).i_size + ws := by
  unfold tfs_write_direct_region
  exact writeDirectLoop_sizes i f buf REFERENCE_BLOCK_INDEX ws 0 s

theorem tfs_write_indirect_region_sizes (i f : Nat) (buf : Nat → Nat) (ws : Nat) (s : FSState) :
    (∀ j, (tfs_write_indirect_region i f buf ws s).2.freeinode_ts j = s.freeinode_ts j) ∧
    (∀ j, j ≠ i → ((tfs_write_indirect_region i f buf ws s).2.inode_table j).i_size =
      (s.inode_table j).i_size) ∧
    ((s.inode_table i).i_size ≤ MAX_BYTES →
      ((tfs_write_indirect_region i f buf ws s).2.inode_table i).i_size ≤ MAX_BYTES) := by
  unfold tfs_write_indirect_region
  exact writeIndirectLoop_sizes i f buf (ws + 1) ws 0 s

theorem tfs_write_sizeInv (fh : Int) (buf : Nat → Nat) (n : Nat) (s : FSState)
    (h : sizeInv s) : sizeInv (tfs_write fh buf n s).2 := by
  have hMB : (MAX_BYTES : Nat) = 272384 := rfl
  have hMD : (MAX_BYTES_DIRECT_DATA : Nat) = 10240 := rfl
  unfold tfs_write
  by_cases h0 : n = 0
  · rw [if_pos h0]
    exact h
  rw [if_neg h0]
  cases hge : get_open_file_entry fh with
  | none => exact h
  | some f =>
    dsimp only
    cases hig : inode_get (s.of_inumber f) with
    | none => exact h
    | some i =>
      dsimp only
      by_cases hb1 : (s.inode_table i).i_size + n ≤ MAX_BYTES_DIRECT_DATA
      · rw [if_pos hb1]
        obtain ⟨h1, h2, h3⟩ := tfs_write_direct_region_sizes i f buf n s
        intro j hj ht
        by_cases hji : j = i
        · subst hji
          omega
        · rw [h2 j hji]
          exact h j hj (by rw [← h1 j]; exact ht)
      rw [if_neg hb1]
      by_cases hb2 : (s.inode_table i).i_size ≥ MAX_BYTES_DIRECT_DATA
      · rw [if_pos hb2]
        obtain ⟨s1, hs1eq, hfr1, hsz1⟩ := tfs_handle_if_frame i s
        rw [hs1eq]
        obtain ⟨h1, h2, h3⟩ := tfs_write_indirect_region_sizes i f buf n s1
        intro j hj ht
        by_cases hji : j = i
        · subst hji
          exact h3 (by rw [hsz1 j]; exact h j hj (by rw [← hfr1 j, ← h1 j]; exact ht))
        · rw [h2 j hji, hsz1 j]
          exact h j hj (by rw [← hfr1 j, ← h1 j]; exact ht)
      rw [if_neg hb2]
      obtain ⟨hp1, hp2, hp3⟩ := tfs_write_direct_region_sizes i f buf
        (MAX_BYTES_DIRECT_DATA - (s.inode_table i).i_size) s
      obtain ⟨s2, hs2eq, hfr2, hsz2⟩ := tfs_handle_if_frame i
        (tfs_write_direct_region i f buf (MAX_BYTES_DIRECT_DATA - (s.inode_table i).i_size) s).2
      rw [hs2eq]
      by_cases hpfail : (tfs_write_direct_region i f buf
          (MAX_BYTES_DIRECT_DATA - (s.inode_table i).i_size) s).1 = -1
      · rw [if_pos hpfail]
        intro j hj ht
        by_cases hji : j = i
        · subst hji
          show (s2.inode_table j).i_size ≤ MAX_BYTES
          have h4 := hsz2 j
          have h5 := hp3
          omega
        · rw [hsz2 j, hp2 j hji]
          exact h j hj (by rw [← hp1 j, ← hfr2 j]; exact ht)
      rw [if_neg hpfail]
      obtain ⟨h1, h2, h3⟩ := tfs_write_indirect_region_sizes i f
        (fun j => buf (MAX_BYTES_DIRECT_DATA - (s.inode_table i).i_size + j))
        (n - (MAX_BYTES_DIRECT_DATA - (s.inode_table i).i_size)) s2
      by_cases hqfail : (tfs_write_indirect_region i f
          (fun j => buf (MAX_BYTES_DIRECT_DATA - (s.inode_table i).i_size + j))
          (n - (MAX_BYTES_DIRECT_DATA - (s.inode_table i).i_size)) s2).1 = -1
      · rw [if_pos hqfail]
        intro j hj ht
        by_cases hji : j = i
        · subst hji
          refine h3 ?_
          have h4 := hsz2 j
          have h5 := hp3
          omega
        · rw [h2 j hji, hsz2 j, hp2 j hji]
          exact h j hj (by rw [← hp1 j, ← hfr2 j, ← h1 j]; exact ht)
      · rw [if_neg hqfail]
        intro j hj ht
        by_cases hji : j = i
        · subst hji
          refine h3 ?_
          have h4 := hsz2 j
          have h5 := hp3
          omega
        · rw [h2 j hji, hsz2 j, hp2 j hji]
          exact h j hj (by rw [← hp1 j, ← hfr2 j, ← h1 j]; exact ht)

theorem data_block_free_frame (b : Int) (s : FSState) :
    (data_block_free b s).2.inode_table = s.inode_table ∧
    (data_block_free b s).2.freeinode_ts = s.freeinode_ts := by
  unfold data_block_free
  split
  · exact ⟨rfl, rfl⟩
  · exact ⟨rfl, rfl⟩

theorem add_to_open_file_table_frame (inumber : Int) (offset : Nat) (s : FSState) :
    (add_to_open_file_table inumber offset s).2.inode_table = s.inode_table ∧
    (add_to_open_file_table inumber offset s).2.freeinode_ts = s.freeinode_ts := by
  unfold add_to_open_file_table
  cases hf : firstFit (fun i => !s.free_open_file_entries i) 0 MAX_OPEN_FILES with
  | none => exact ⟨rfl, rfl⟩
  | some k => exact ⟨rfl, rfl⟩

theorem add_dir_entry_frame (a b : Int) (nm : List Char) (s : FSState) :
    (add_dir_entry a b nm s).2.inode_table = s.inode_table ∧
    (add_dir_entry a b nm s).2.freeinode_ts = s.freeinode_ts := by
  unfold add_dir_entry
  split
  · exact ⟨rfl, rfl⟩
  split
  · exact ⟨rfl, rfl⟩
  split
  · exact ⟨rfl, rfl⟩
  split
  · exact ⟨rfl, rfl⟩
  split
  · exact ⟨rfl, rfl⟩
  · exact ⟨rfl, rfl⟩

theorem inode_create_sizeInv (t : InodeType) (s : FSState) (h : sizeInv s) :
    sizeInv (inode_create t s).2 := by
  unfold inode_create
  cases hf : firstFit (fun i => !s.freeinode_ts i) 0 INODE_TABLE_SIZE with
  | none => exact h
  | some inum =>
    dsimp only
    cases t with
    | T_FILE =>
      intro j hj ht
      by_cases hji : j = inum
      · subst hji
        simp only [updF_self]
        norm_num
      · simp only [updF_ne _ _ hji] at ht ⊢
        exact h j hj ht
    | T_DIRECTORY =>
      obtain ⟨r, sa, haeq, hai, haf⟩ :
          ∃ r sa, data_block_alloc
              { s with freeinode_ts := updF s.freeinode_ts inum true } = (r, sa) ∧
            sa.inode_table = s.inode_table ∧
            sa.freeinode_ts = updF s.freeinode_ts inum true := by
        unfold data_block_alloc
        cases hb : firstFit (fun i =>
            !({ s with freeinode_ts := updF s.freeinode_ts inum true } : FSState).free_blocks i)
            0 DATA_BLOCKS with
        | none => exact ⟨_, _, rfl, rfl, rfl⟩
        | some bb => exact ⟨_, _, rfl, rfl, rfl⟩
      rw [haeq]
      dsimp only
      split
      · intro j hj ht
        by_cases hji : j = inum
        · subst hji
          rw [haf] at ht
          simp [updF] at ht
        · show (sa.inode_table j).i_size ≤ MAX_BYTES
          rw [hai]
          rw [haf] at ht
          simp only [updF] at ht
          rw [if_neg hji, if_neg hji] at ht
          exact h j hj ht
      · intro j hj ht
        by_cases hji : j = inum
        · subst hji
          simp only [updF_self]
          show (1024 : Nat) ≤ MAX_BYTES
          norm_num
        · simp only [updF_ne _ _ hji] at ht ⊢
          rw [hai]
          rw [haf] at ht
          simp only [updF] at ht
          rw [if_neg hji] at ht
          exact h j hj ht

theorem inode_delete_sizeInv (inum : Int) (s : FSState) (h : sizeInv s) :
    sizeInv (inode_delete inum s).2 := by
  have hcore : sizeInv
      ({ s with freeinode_ts := updF s.freeinode_ts inum.toNat false } : FSState) := by
    intro j hj ht
    by_cases hji : j = inum.toNat
    · subst hji
      simp [updF] at ht
    · simp only [updF] at ht
      rw [if_neg hji] at ht
      exact h j hj ht
  unfold inode_delete
  dsimp only
  split
  · obtain ⟨hdi, hdf⟩ := data_block_free_frame
      (({ s with freeinode_ts := updF s.freeinode_ts inum.toNat false } : FSState).inode_table
        inum.toNat).i_data_block
      { s with freeinode_ts := updF s.freeinode_ts inum.toNat false }
    split
    · split
      · exact sizeInv_mono (fun j => by rw [hdf]) (fun j => by rw [hdi]) hcore
      · exact sizeInv_mono (fun j => by rw [hdf]) (fun j => by rw [hdi]) hcore
    · exact hcore
  · exact h

theorem tfs_close_sizeInv (fh : Int) (s : FSState) (h : sizeInv s) :
    sizeInv (tfs_close fh s).2 := by
  unfold tfs_close remove_from_open_file_table
  split
  · exact h
  · exact h

theorem tfs_read_sizeInv (fh : Int) (dest : Nat → Nat) (len : Nat) (s : FSState)
    (h : sizeInv s) : sizeInv (tfs_read fh dest len s).2.2 := by
  obtain ⟨h1, h2⟩ := tfs_read_frame fh dest len s
  exact sizeInv_mono (fun j => by rw [h2]) (fun j => by rw [h1]) h

theorem tfs_open_sizeInv (name : List Char) (flags : Nat) (s : FSState)
    (h : sizeInv s) : sizeInv (tfs_open name flags s).2 := by
  unfold tfs_open
  by_cases hv : ¬ valid_pathname name = true
  · rw [if_pos hv]
    exact h
  rw [if_neg hv]
  by_cases h0 : 0 ≤ tfs_lookup name s
  · rw [if_pos h0]
    cases hig : inode_get (tfs_lookup name s) with
    | none => exact h
    | some i =>
      dsimp only
      obtain ⟨r1, s1, hq, hfr, hsz⟩ :
          ∃ r1 s1,
            (if flags &&& TFS_O_TRUNC ≠ 0 then
              if (s.inode_table i).i_size > 0 then
                (if (data_block_free (s.inode_table i).i_data_block s).1 = -1 then
                  ((-1 : Int), (data_block_free (s.inode_table i).i_data_block s).2)
                else
                  ((0 : Int),
                    { (data_block_free (s.inode_table i).i_data_block s).2 with
                      inode_table := updF
                        (data_block_free (s.inode_table i).i_data_block s).2.inode_table i
                        { (data_block_free (s.inode_table i).i_data_block s).2.inode_table i with
                          i_size := 0 } }))
              else ((0 : Int), s)
            else ((0 : Int), s)) = (r1, s1) ∧
            (∀ j, s1.freeinode_ts j = s.freeinode_ts j) ∧
            (∀ j, (s1.inode_table j).i_size ≤ (s.inode_table j).i_size) := by
        obtain ⟨hdi, hdf⟩ := data_block_free_frame (s.inode_table i).i_data_block s
        by_cases hT : flags &&& TFS_O_TRUNC ≠ 0
        · rw [if_pos hT]
          by_cases hsz0 : (s.inode_table i).i_size > 0
          · rw [if_pos hsz0]
            by_cases hfail : (data_block_free (s.inode_table i).i_data_block s).1 = -1
            · rw [if_pos hfail]
              exact ⟨_, _, rfl, fun j => by rw [hdf], fun j => by rw [hdi]⟩
            · rw [if_neg hfail]
              refine ⟨_, _, rfl, fun j => by rw [hdf], fun j => ?_⟩
              by_cases hji : j = i
              · subst hji
                simp only [updF_self]
                omega
              · simp only [updF_ne _ _ hji]
                rw [hdi]
          · rw [if_neg hsz0]
            exact ⟨_, _, rfl, fun j => rfl, fun j => le_refl _⟩
        · rw [if_neg hT]
          exact ⟨_, _, rfl, fun j => rfl, fun j => le_refl _⟩
      have hs1 : sizeInv s1 := by
        intro j hj ht
        exact le_trans (hsz j) (h j hj (by rw [← hfr j]; exact ht))
      rw [hq]
      dsimp only
      by_cases hr1 : r1 = -1
      · rw [if_pos hr1]
        exact hs1
      · rw [if_neg hr1]
        exact sizeInv_mono (fun j => by rw [(add_to_open_file_table_frame _ _ _).2])
          (fun j => by rw [(add_to_open_file_table_frame _ _ _).1]) hs1
  · rw [if_neg h0]
    by_cases hC : flags &&& TFS_O_CREAT ≠ 0
    · rw [if_pos hC]
      dsimp only
      have hcr : sizeInv (inode_create T_FILE s).2 := inode_create_sizeInv T_FILE s h
      by_cases hpc : (inode_create T_FILE s).1 = -1
      · rw [if_pos hpc]
        exact hcr
      rw [if_neg hpc]
      obtain ⟨hai, haf⟩ := add_dir_entry_frame ROOT_DIR_INUM (inode_create T_FILE s).1
        name.tail (inode_create T_FILE s).2
      have had : sizeInv (add_dir_entry ROOT_DIR_INUM (inode_create T_FILE s).1
          name.tail (inode_create T_FILE s).2).2 :=
        sizeInv_mono (fun j => by rw [haf]) (fun j => by rw [hai]) hcr
      by_cases hqf : (add_dir_entry ROOT_DIR_INUM (inode_create T_FILE s).1
          name.tail (inode_create T_FILE s).2).1 = -1
      · rw [if_pos hqf]
        exact inode_delete_sizeInv _ _ had
      · rw [if_neg hqf]
        exact sizeInv_mono (fun j => by rw [(add_to_open_file_table_frame _ _ _).2])
          (fun j => by rw [(add_to_open_file_table_frame _ _ _).1]) had
    · rw [if_neg hC]
      exact h

/-- C4 (amended): the first half of the claimed invariant - every allocated
inode's size is at most `MAX_BYTES` - holds after `tfs_init` and is preserved
by `tfs_open`, `tfs_close`, `tfs_read` and `tfs_write`.  The second half
(no indirect block while the size is at most `MAX_BYTES_DIRECT_DATA`) is
not preserved: opening a file that has grown past the direct region with
`TFS_O_TRUNC` leaves size 0 with `i_block[10]` still assigned (see the
counterexample). -/
theorem C4_amended_size_preservation :
    sizeInv tfs_init.2 ∧
    (∀ (name : List Char) (flags : Nat) (s : FSState), sizeInv s →
      sizeInv (tfs_open name flags s).2) ∧
    (∀ (fh : Int) (s : FSState), sizeInv s → sizeInv (tfs_close fh s).2) ∧
    (∀ (fh : Int) (dest : Nat → Nat) (len : Nat) (s : FSState), sizeInv s →
      sizeInv (tfs_read fh dest len s).2.2) ∧
    (∀ (fh : Int) (buf : Nat → Nat) (n : Nat) (s : FSState), sizeInv s →
      sizeInv (tfs_write fh buf n s).2) :=
  ⟨by decide, tfs_open_sizeInv, tfs_close_sizeInv, tfs_read_sizeInv, tfs_write_sizeInv⟩

/-- Witness for the amended C4: preservation applied to concrete states. -/
theorem C4_amended_size_preservation_witness :
    sizeInv (tfs_open ['/', 'a'] TFS_O_CREAT tfs_init.2).2 ∧
    sizeInv (tfs_write 0 (fun _ => 7) 5 fullFileState).2 := by
  have h := C4_amended_size_preservation
  exact ⟨h.2.1 ['/', 'a'] TFS_O_CREAT tfs_init.2 h.1,
    h.2.2.2.2 0 (fun _ => 7) 5 fullFileState (by decide)⟩

theorem updF_updF {α : Type} (f : Nat → α) (i : Nat) (a b : α) :
    updF (updF f i a) i b = updF f i b := by
  funext j
  by_cases h : j = i <;> simp [updF, h]

theorem data_block_alloc_seq (s : FSState) (m : Nat)
    (hfree : ∀ b, s.free_blocks b = decide (b ≤ m)) (hlt : m + 1 < DATA_BLOCKS) :
    data_block_alloc s = (((m + 1 : Nat) : Int),
      { s with free_blocks := updF s.free_blocks (m + 1) true }) := by
  unfold data_block_alloc
  rw [firstFit_eq _ DATA_BLOCKS 0 (m + 1) (by omega) (by omega)
    (fun j h1 h2 => by simp [hfree j]; omega)
    (by simp [hfree (m + 1)])]

theorem updF_free_seq {g : Nat → Bool} {m : Nat}
    (hfree : ∀ b, g b = decide (b ≤ m)) :
    ∀ b, (updF g (m + 1) true) b = decide (b ≤ m + 1) := by
  intro b
  by_cases hb : b = m + 1
  · subst hb; simp [updF]
  · rw [updF_ne _ _ hb, hfree b]
    simp only [decide_eq_decide]
    omega

theorem direct_block_insert_seq (i : Nat) (s : FSState) (m : Nat)
    (hfree : ∀ b, s.free_blocks b = decide (b ≤ m)) (hlt : m + 1 < DATA_BLOCKS) :
    direct_block_insert i s = (0, { s with
      free_blocks := updF s.free_blocks (m + 1) true,
      fs_data := memSet s.fs_data ((m + 1) * BLOCK_SIZE) 255 BLOCK_SIZE,
      inode_table := updF s.inode_table i
        { s.inode_table i with
          i_data_block := ((m + 1 : Nat) : Int),
          i_block := updF (s.inode_table i).i_block m ((m + 1 : Nat) : Int) } }) := by
  unfold direct_block_insert
  rw [data_block_alloc_seq s m hfree hlt]
  dsimp only
  rw [if_neg (natCast_ne_neg_one (m + 1))]
  rw [Prod.mk.injEq]
  refine ⟨rfl, ?_⟩
  rw [updF_updF]
  simp only [updF_self]
  rfl

theorem tfs_handle_indirect_block_seq (i : Nat) (s : FSState) (m : Nat)
    (hfree : ∀ b, s.free_blocks b = decide (b ≤ m)) (hlt : m + 1 < DATA_BLOCKS) :
    tfs_handle_indirect_block i s = (0, { s with
      free_blocks := updF s.free_blocks (m + 1) true,
      fs_data := memSet s.fs_data ((m + 1) * BLOCK_SIZE) 255 8,
      inode_table := updF s.inode_table i
        { s.inode_table i with
          i_data_block := ((m + 1 : Nat) : Int),
          i_block := updF (s.inode_table i).i_block MAX_DIRECT_BLOCKS
            ((m + 1 : Nat) : Int) } }) := by
  unfold tfs_handle_indirect_block
  rw [data_block_alloc_seq s m hfree hlt]
  dsimp only
  rw [if_neg (natCast_ne_neg_one (m + 1))]
  rfl

theorem indirect_block_insert_seq (i : Nat) (s : FSState) (m : Nat)
    (hfree : ∀ b, s.free_blocks b = decide (b ≤ m)) (hlt : m + 1 < DATA_BLOCKS)
    (href : (s.inode_table i).i_block MAX_DIRECT_BLOCKS = ((REFERENCE_BLOCK_INDEX : Nat) : Int))
    (h12 : FIRST_INDIRECT_BLOCK ≤ m + 1) :
    indirect_block_insert i s = (0, { s with
      free_blocks := updF s.free_blocks (m + 1) true,
      inode_table := updF s.inode_table i
        { s.inode_table i with i_data_block := ((m + 1 : Nat) : Int) },
      fs_data := storeLE4 (memSet s.fs_data ((m + 1) * BLOCK_SIZE) 255 (BLOCK_SIZE / 4))
        (REFERENCE_BLOCK_INDEX * BLOCK_SIZE + 4 * (m + 1 - FIRST_INDIRECT_BLOCK))
        (m + 1) }) := by
  unfold indirect_block_insert
  rw [data_block_alloc_seq s m hfree hlt, href]
  dsimp only
  rw [if_neg (natCast_ne_neg_one (m + 1))]
  rw [if_pos ⟨by decide, by simpa using h12⟩]
  rfl

theorem writeDirectLoop_step (i f : Nat) (buf : Nat → Nat)
    (fuel ws bw sz : Nat) (s : FSState) (hws : ws ≠ 0)
    (h1 : (s.inode_table i).i_size = sz) (h2 : s.of_offset f = sz)
    (h3 : sz % BLOCK_SIZE ≠ 0 →
      (s.inode_table i).i_data_block = ((sz / BLOCK_SIZE + 1 : Nat) : Int))
    (h4 : ∀ b, s.free_blocks b = decide (b ≤ blocksOf sz))
    (h5 : sz + ws ≤ MAX_BYTES_DIRECT_DATA) :
    writeDirectLoop i f buf (fuel + 1) ws bw s =
      writeDirectLoop i f buf fuel (ws - min ws (BLOCK_SIZE - sz % BLOCK_SIZE))
        (bw + min ws (BLOCK_SIZE - sz % BLOCK_SIZE))
        (dwriteNext i f buf bw (min ws (BLOCK_SIZE - sz % BLOCK_SIZE)) sz s) := by
  have hB : (BLOCK_SIZE : Nat) = 1024 := rfl
  have hBo : blocksOf sz = (sz + 1023) / 1024 := rfl
  have hM : (MAX_BYTES_DIRECT_DATA : Nat) = 10240 := rfl
  conv_lhs => unfold writeDirectLoop
  rw [if_neg hws, h1]
  unfold dwriteNext
  by_cases halign : sz % BLOCK_SIZE = 0
  · rw [if_pos halign, if_pos halign]
    have ha2 : sz % 1024 = 0 := halign
    have h5' : sz + ws ≤ 10240 := h5
    have h4' : ∀ b, s.free_blocks b = decide (b ≤ sz / BLOCK_SIZE) := by
      intro b
      rw [h4 b]
      simp only [decide_eq_decide]
      rw [hBo, hB]
      omega
    have hblt : sz / BLOCK_SIZE + 1 < DATA_BLOCKS := by
      show sz / 1024 + 1 < 1024
      omega
    rw [direct_block_insert_seq i s (sz / BLOCK_SIZE) h4' hblt]
    dsimp only
    rw [if_neg (by decide : ¬ ((0 : Int) = -1))]
    simp only [updF_self]
    rw [if_neg (not_not_intro (valid_block_number_cast hblt))]
    rw [h2, h1]
    have hdst : (((sz / BLOCK_SIZE + 1 : Nat) : Int)).toNat * BLOCK_SIZE + sz % BLOCK_SIZE =
        BLOCK_SIZE + sz := by
      simp only [Int.toNat_natCast]
      rw [hB]
      omega
    rw [hdst]
    by_cases hbig : ws ≥ BLOCK_SIZE ∨ BLOCK_SIZE - sz % BLOCK_SIZE < ws
    · rw [if_pos hbig]
      have hmin : min ws (BLOCK_SIZE - sz % BLOCK_SIZE) = BLOCK_SIZE - sz % BLOCK_SIZE := by
        rcases hbig with h | h <;> omega
      rw [hmin]
    · rw [if_neg hbig]
      have hmin : min ws (BLOCK_SIZE - sz % BLOCK_SIZE) = ws := by
        push_neg at hbig
        omega
      rw [hmin]
      have hz : ws - ws = 0 := by omega
      rw [hz]
  · rw [if_neg halign, if_neg halign]
    rw [if_neg (by decide : ¬ ((0 : Int) = -1))]
    dsimp only
    rw [h3 halign]
    have h5' : sz + ws ≤ 10240 := h5
    have hblt : sz / BLOCK_SIZE + 1 < DATA_BLOCKS := by
      show sz / 1024 + 1 < 1024
      omega
    rw [if_neg (not_not_intro (valid_block_number_cast hblt))]
    rw [h2, h1]
    have hdst : (((sz / BLOCK_SIZE + 1 : Nat) : Int)).toNat * BLOCK_SIZE + sz % BLOCK_SIZE =
        BLOCK_SIZE + sz := by
      simp only [Int.toNat_natCast]
      rw [hB]
      omega
    rw [hdst]
    by_cases hbig : ws ≥ BLOCK_SIZE ∨ BLOCK_SIZE - sz % BLOCK_SIZE < ws
    · rw [if_pos hbig]
      have hmin : min ws (BLOCK_SIZE - sz % BLOCK_SIZE) = BLOCK_SIZE - sz % BLOCK_SIZE := by
        rcases hbig with h | h <;> omega
      rw [hmin]
    · rw [if_neg hbig]
      have hmin : min ws (BLOCK_SIZE - sz % BLOCK_SIZE) = ws := by
        push_neg at hbig
        omega
      rw [hmin]
      have hz : ws - ws = 0 := by omega
      rw [hz]

theorem writeIndirectLoop_step (i f : Nat) (buf : Nat → Nat)
    (fuel ws bw sz : Nat) (s : FSState) (hws : ws ≠ 0)
    (h1 : (s.inode_table i).i_size = sz) (h2 : s.of_offset f = sz)
    (h3 : sz % BLOCK_SIZE ≠ 0 →
      (s.inode_table i).i_data_block = ((sz / BLOCK_SIZE + 2 : Nat) : Int))
    (h4 : ∀ b, s.free_blocks b = decide (b ≤ blocksOf sz + 1))
    (h5 : sz + ws ≤ MAX_BYTES)
    (h6 : MAX_BYTES_DIRECT_DATA ≤ sz)
    (h7 : (s.inode_table i).i_block MAX_DIRECT_BLOCKS = ((REFERENCE_BLOCK_INDEX : Nat) : Int)) :
    writeIndirectLoop i f buf (fuel + 1) ws bw s =
      writeIndirectLoop i f buf fuel (ws - min ws (BLOCK_SIZE - sz % BLOCK_SIZE))
        (bw + min ws (BLOCK_SIZE - sz % BLOCK_SIZE))
        (iwriteNext i f buf bw (min ws (BLOCK_SIZE - sz % BLOCK_SIZE)) sz s) := by
  have hB : (BLOCK_SIZE : Nat) = 1024 := rfl
  have hBo : blocksOf sz = (sz + 1023) / 1024 := rfl
  have hM : (MAX_BYTES : Nat) = 272384 := rfl
  have h5' : sz + ws ≤ 272384 := h5
  have h6' : 10240 ≤ sz := h6
  conv_lhs => unfold writeIndirectLoop
  rw [if_neg hws, h1]
  dsimp only
  rw [if_neg (show ¬ (sz + ws > MAX_BYTES) by omega)]
  unfold iwriteNext
  by_cases halign : sz % BLOCK_SIZE = 0
  · rw [if_pos halign, if_pos halign]
    have ha2 : sz % 1024 = 0 := halign
    have h4' : ∀ b, s.free_blocks b = decide (b ≤ sz / BLOCK_SIZE + 1) := by
      intro b
      rw [h4 b]
      simp only [decide_eq_decide]
      rw [hBo, hB]
      omega
    have hblt : sz / BLOCK_SIZE + 1 + 1 < DATA_BLOCKS := by
      show sz / 1024 + 1 + 1 < 1024
      omega
    have h12 : FIRST_INDIRECT_BLOCK ≤ sz / BLOCK_SIZE + 1 + 1 := by
      show 12 ≤ sz / 1024 + 1 + 1
      omega
    rw [indirect_block_insert_seq i s (sz / BLOCK_SIZE + 1) h4' hblt h7 h12]
    dsimp only
    rw [if_neg (by decide : ¬ ((0 : Int) = -1))]
    simp only [updF_self]
    rw [if_neg (not_not_intro (valid_block_number_cast hblt))]
    rw [h2, h1]
    have hdst : (((sz / BLOCK_SIZE + 1 + 1 : Nat) : Int)).toNat * BLOCK_SIZE + sz % BLOCK_SIZE =
        2 * BLOCK_SIZE + sz := by
      simp only [Int.toNat_natCast]
      rw [hB]
      omega
    rw [hdst]
    by_cases hbig : ws ≥ BLOCK_SIZE ∨ BLOCK_SIZE - sz % BLOCK_SIZE < ws
    · rw [if_pos hbig]
      have hmin : min ws (BLOCK_SIZE - sz % BLOCK_SIZE) = BLOCK_SIZE - sz % BLOCK_SIZE := by
        rcases hbig with h | h <;> omega
      rw [hmin]
    · rw [if_neg hbig]
      have hmin : min ws (BLOCK_SIZE - sz % BLOCK_SIZE) = ws := by
        push_neg at hbig
        omega
      rw [hmin]
      have hz : ws - ws = 0 := by omega
      rw [hz]
  · rw [if_neg halign, if_neg halign]
    rw [if_neg (by decide : ¬ ((0 : Int) = -1))]
    dsimp only
    rw [h3 halign]
    have hblt : sz / BLOCK_SIZE + 2 < DATA_BLOCKS := by
      show sz / 1024 + 2 < 1024
      omega
    rw [if_neg (not_not_intro (valid_block_number_cast hblt))]
    rw [h2, h1]
    have hdst : (((sz / BLOCK_SIZE + 2 : Nat) : Int)).toNat * BLOCK_SIZE + sz % BLOCK_SIZE =
        2 * BLOCK_SIZE + sz := by
      simp only [Int.toNat_natCast]
      rw [hB]
      omega
    rw [hdst]
    by_cases hbig : ws ≥ BLOCK_SIZE ∨ BLOCK_SIZE - sz % BLOCK_SIZE < ws
    · rw [if_pos hbig]
      have hmin : min ws (BLOCK_SIZE - sz % BLOCK_SIZE) = BLOCK_SIZE - sz % BLOCK_SIZE := by
        rcases hbig with h | h <;> omega
      rw [hmin]
    · rw [if_neg hbig]
      have hmin : min ws (BLOCK_SIZE - sz % BLOCK_SIZE) = ws := by
        push_neg at hbig
        omega
      rw [hmin]
      have hz : ws - ws = 0 := by omega
      rw [hz]

theorem dwriteNext_facts (i f : Nat) (buf : Nat → Nat) (bw twb sz : Nat) (s : FSState)
    (h3 : sz % BLOCK_SIZE ≠ 0 →
      (s.inode_table i).i_data_block = ((sz / BLOCK_SIZE + 1 : Nat) : Int))
    (h4 : ∀ b, s.free_blocks b = decide (b ≤ blocksOf sz))
    (htwb : 0 < twb) (hle : twb ≤ BLOCK_SIZE - sz % BLOCK_SIZE) :
    ((dwriteNext i f buf bw twb sz s).inode_table i).i_size = sz + twb ∧
    (dwriteNext i f buf bw twb sz s).of_offset f = sz + twb ∧
    ((sz + twb) % BLOCK_SIZE ≠ 0 →
      ((dwriteNext i f buf bw twb sz s).inode_table i).i_data_block =
        (((sz + twb) / BLOCK_SIZE + 1 : Nat) : Int)) ∧
    (∀ b, (dwriteNext i f buf bw twb sz s).free_blocks b =
      decide (b ≤ blocksOf (sz + twb))) ∧
    ((dwriteNext i f buf bw twb sz s).inode_table i).i_node_type =
      (s.inode_table i).i_node_type ∧
    (∀ k, ((dwriteNext i f buf bw twb sz s).inode_table i).i_block k =
      if blocksOf sz ≤ k ∧ k < blocksOf (sz + twb) then ((k + 1 : Nat) : Int)
      else (s.inode_table i).i_block k) ∧
    (∀ j, j ≠ i → (dwriteNext i f buf bw twb sz s).inode_table j = s.inode_table j) ∧
    (∀ g, g ≠ f → (dwriteNext i f buf bw twb sz s).of_offset g = s.of_offset g) ∧
    (dwriteNext i f buf bw twb sz s).freeinode_ts = s.freeinode_ts ∧
    (dwriteNext i f buf bw twb sz s).of_inumber = s.of_inumber ∧
    (dwriteNext i f buf bw twb sz s).free_open_file_entries = s.free_open_file_entries ∧
    (dwriteNext i f buf bw twb sz s).dir = s.dir ∧
    (∀ a, a < BLOCK_SIZE + sz → (dwriteNext i f buf bw twb sz s).fs_data a = s.fs_data a) ∧
    (∀ j, j < twb →
      (dwriteNext i f buf bw twb sz s).fs_data (BLOCK_SIZE + sz + j) = buf (bw + j)) ∧
    (∀ a, BLOCK_SIZE + sz + twb ≤ a →
      (dwriteNext i f buf bw twb sz s).fs_data a =
        if BLOCK_SIZE * (blocksOf sz + 1) ≤ a ∧ a < BLOCK_SIZE * (blocksOf (sz + twb) + 1)
        then 255 else s.fs_data a) := by
  have hB : (BLOCK_SIZE : Nat) = 1024 := rfl
  have e1 : blocksOf sz = (sz + 1023) / 1024 := rfl
  have e2 : blocksOf (sz + twb) = (sz + twb + 1023) / 1024 := rfl
  have hle' : twb ≤ 1024 - sz % 1024 := hle
  by_cases halign : sz % BLOCK_SIZE = 0
  · have ha : sz % 1024 = 0 := halign
    have hS : dwriteNext i f buf bw twb sz s = { s with
        free_blocks := updF s.free_blocks (sz / BLOCK_SIZE + 1) true,
        fs_data := memWrite
          (memSet s.fs_data ((sz / BLOCK_SIZE + 1) * BLOCK_SIZE) 255 BLOCK_SIZE)
          (BLOCK_SIZE + sz) (fun j => buf (bw + j)) twb,
        of_offset := updF s.of_offset f (sz + twb),
        inode_table := updF s.inode_table i
          { s.inode_table i with
            i_size := sz + twb,
            i_data_block := ((sz / BLOCK_SIZE + 1 : Nat) : Int),
            i_block := updF (s.inode_table i).i_block (sz / BLOCK_SIZE)
              ((sz / BLOCK_SIZE + 1 : Nat) : Int) } } := by
      unfold dwriteNext
      rw [if_pos halign]
      dsimp only
      rw [updF_updF]
      simp only [updF_self]
    have h4' : ∀ b, s.free_blocks b = decide (b ≤ sz / BLOCK_SIZE) := by
      intro b
      rw [h4 b]
      simp only [decide_eq_decide]
      rw [e1, hB]
      omega
    rw [hS]
    dsimp only
    refine ⟨by rw [updF_self], by rw [updF_self], ?_, ?_, by rw [updF_self], ?_, ?_, ?_,
      rfl, rfl, rfl, rfl, ?_, ?_, ?_⟩
    · intro h
      have h' : (sz + twb) % 1024 ≠ 0 := h
      rw [updF_self]
      show ((sz / BLOCK_SIZE + 1 : Nat) : Int) = (((sz + twb) / BLOCK_SIZE + 1 : Nat) : Int)
      have hdiv : sz / BLOCK_SIZE = (sz + twb) / BLOCK_SIZE := by
        show sz / 1024 = (sz + twb) / 1024
        omega
      rw [hdiv]
    · intro b
      rw [updF_free_seq h4' b]
      simp only [decide_eq_decide]
      rw [e2, hB]
      omega
    · intro k
      rw [updF_self]
      dsimp only
      by_cases hk : k = sz / BLOCK_SIZE
      · subst hk
        rw [updF_self, if_pos
          (by have hd : sz / BLOCK_SIZE = sz / 1024 := rfl
              rw [e1, e2]
              constructor <;> omega)]
      · rw [updF_ne _ _ hk,
          if_neg (by rw [e1, e2]; have hk2 : k ≠ sz / 1024 := hk; omega)]
    · intro j hj
      rw [updF_ne _ _ hj]
    · intro g hg
      rw [updF_ne _ _ hg]
    · intro a ha2
      have ha2' : a < 1024 + sz := ha2
      rw [memWrite_lo ha2, memSet_lo (show a < (sz / 1024 + 1) * 1024 by omega)]
    · intro j hj
      rw [memWrite_mid (by omega) (by omega)]
      have e : BLOCK_SIZE + sz + j - (BLOCK_SIZE + sz) = j := by omega
      rw [e]
    · intro a hge
      have hge' : 1024 + sz + twb ≤ a := hge
      have m1 : BLOCK_SIZE * (blocksOf sz + 1) = (sz + 1023) / 1024 * 1024 + 1024 := by
        rw [e1, hB]
        omega
      have m2 : BLOCK_SIZE * (blocksOf (sz + twb) + 1) =
          (sz + twb + 1023) / 1024 * 1024 + 1024 := by
        rw [e2, hB]
        omega
      have m3 : (sz / BLOCK_SIZE + 1) * BLOCK_SIZE = (sz + 1023) / 1024 * 1024 + 1024 := by
        rw [hB]
        omega
      rw [m1, m2, m3]
      by_cases hzone : (sz + 1023) / 1024 * 1024 + 1024 ≤ a ∧
          a < (sz + twb + 1023) / 1024 * 1024 + 1024
      · rw [if_pos hzone, memWrite_hi (by omega),
          memSet_mid (by omega) (by omega)]
      · rw [if_neg hzone, memWrite_hi (by omega), memSet_hi (by omega)]
  · have ha : sz % 1024 ≠ 0 := halign
    have hS : dwriteNext i f buf bw twb sz s = { s with
        fs_data := memWrite s.fs_data (BLOCK_SIZE + sz) (fun j => buf (bw + j)) twb,
        of_offset := updF s.of_offset f (sz + twb),
        inode_table := updF s.inode_table i
          { s.inode_table i with i_size := sz + twb } } := by
      unfold dwriteNext
      rw [if_neg halign]
    rw [hS]
    dsimp only
    refine ⟨by rw [updF_self], by rw [updF_self], ?_, ?_, by rw [updF_self], ?_, ?_, ?_,
      rfl, rfl, rfl, rfl, ?_, ?_, ?_⟩
    · intro h
      have h' : (sz + twb) % 1024 ≠ 0 := h
      rw [updF_self]
      show (s.inode_table i).i_data_block = (((sz + twb) / BLOCK_SIZE + 1 : Nat) : Int)
      rw [h3 halign]
      have hdiv : sz / BLOCK_SIZE = (sz + twb) / BLOCK_SIZE := by
        show sz / 1024 = (sz + twb) / 1024
        omega
      rw [hdiv]
    · intro b
      rw [h4 b]
      simp only [decide_eq_decide]
      rw [e1, e2]
      omega
    · intro k
      rw [updF_self]
      dsimp only
      rw [if_neg (by rw [e1, e2]; omega)]
    · intro j hj
      rw [updF_ne _ _ hj]
    · intro g hg
      rw [updF_ne _ _ hg]
    · intro a ha2
      have ha2' : a < 1024 + sz := ha2
      rw [memWrite_lo ha2]
    · intro j hj
      rw [memWrite_mid (by omega) (by omega)]
      have e : BLOCK_SIZE + sz + j - (BLOCK_SIZE + sz) = j := by omega
      rw [e]
    · intro a hge
      have hge' : 1024 + sz + twb ≤ a := hge
      have m1 : BLOCK_SIZE * (blocksOf sz + 1) = (sz + 1023) / 1024 * 1024 + 1024 := by
        rw [e1, hB]
        omega
      have m2 : BLOCK_SIZE * (blocksOf (sz + twb) + 1) =
          (sz + twb + 1023) / 1024 * 1024 + 1024 := by
        rw [e2, hB]
        omega
      rw [m1, m2]
      rw [if_neg (by omega), memWrite_hi (by omega)]

theorem iwriteNext_facts (i f : Nat) (buf : Nat → Nat) (bw twb sz : Nat) (s : FSState)
    (h3 : sz % BLOCK_SIZE ≠ 0 →
      (s.inode_table i).i_data_block = ((sz / BLOCK_SIZE + 2 : Nat) : Int))
    (h4 : ∀ b, s.free_blocks b = decide (b ≤ blocksOf sz + 1))
    (htwb : 0 < twb) (hle : twb ≤ BLOCK_SIZE - sz % BLOCK_SIZE)
    (hsz : MAX_BYTES_DIRECT_DATA ≤ sz) (hub : sz + twb ≤ MAX_BYTES) :
    ((iwriteNext i f buf bw twb sz s).inode_table i).i_size = sz + twb ∧
    (iwriteNext i f buf bw twb sz s).of_offset f = sz + twb ∧
    ((sz + twb) % BLOCK_SIZE ≠ 0 →
      ((iwriteNext i f buf bw twb sz s).inode_table i).i_data_block =
        (((sz + twb) / BLOCK_SIZE + 2 : Nat) : Int)) ∧
    (∀ b, (iwriteNext i f buf bw twb sz s).free_blocks b =
      decide (b ≤ blocksOf (sz + twb) + 1)) ∧
    ((iwriteNext i f buf bw twb sz s).inode_table i).i_node_type =
      (s.inode_table i).i_node_type ∧
    ((iwriteNext i f buf bw twb sz s).inode_table i).i_block = (s.inode_table i).i_block ∧
    (∀ j, j ≠ i → (iwriteNext i f buf bw twb sz s).inode_table j = s.inode_table j) ∧
    (∀ g, g ≠ f → (iwriteNext i f buf bw twb sz s).of_offset g = s.of_offset g) ∧
    (iwriteNext i f buf bw twb sz s).freeinode_ts = s.freeinode_ts ∧
    (iwriteNext i f buf bw twb sz s).of_inumber = s.of_inumber ∧
    (iwriteNext i f buf bw twb sz s).free_open_file_entries = s.free_open_file_entries ∧
    (iwriteNext i f buf bw twb sz s).dir = s.dir ∧
    (∀ a, a < REFERENCE_BLOCK_INDEX * BLOCK_SIZE →
      (iwriteNext i f buf bw twb sz s).fs_data a = s.fs_data a) ∧
    (∀ a, FIRST_INDIRECT_BLOCK * BLOCK_SIZE ≤ a → a < 2 * BLOCK_SIZE + sz →
      (iwriteNext i f buf bw twb sz s).fs_data a = s.fs_data a) ∧
    (∀ j, j < twb →
      (iwriteNext i f buf bw twb sz s).fs_data (2 * BLOCK_SIZE + sz + j) = buf (bw + j)) := by
  have hB : (BLOCK_SIZE : Nat) = 1024 := rfl
  have e1 : blocksOf sz = (sz + 1023) / 1024 := rfl
  have e2 : blocksOf (sz + twb) = (sz + twb + 1023) / 1024 := rfl
  have hle' : twb ≤ 1024 - sz % 1024 := hle
  have hsz' : 10240 ≤ sz := hsz
  have hub' : sz + twb ≤ 272384 := hub
  by_cases halign : sz % BLOCK_SIZE = 0
  · have ha : sz % 1024 = 0 := halign
    have hS : iwriteNext i f buf bw twb sz s = { s with
        free_blocks := updF s.free_blocks (sz / BLOCK_SIZE + 2) true,
        fs_data := memWrite
          (storeLE4 (memSet s.fs_data ((sz / BLOCK_SIZE + 2) * BLOCK_SIZE) 255 (BLOCK_SIZE / 4))
            (REFERENCE_BLOCK_INDEX * BLOCK_SIZE + 4 * (sz / BLOCK_SIZE + 2 - FIRST_INDIRECT_BLOCK))
            (sz / BLOCK_SIZE + 2))
          (2 * BLOCK_SIZE + sz) (fun j => buf (bw + j)) twb,
        of_offset := updF s.of_offset f (sz + twb),
        inode_table := updF s.inode_table i
          { s.inode_table i with
            i_size := sz + twb,
            i_data_block := ((sz / BLOCK_SIZE + 2 : Nat) : Int) } } := by
      unfold iwriteNext
      rw [if_pos halign]
      dsimp only
      rw [updF_updF]
      simp only [updF_self]
    have h4' : ∀ b, s.free_blocks b = decide (b ≤ sz / BLOCK_SIZE + 1) := by
      intro b
      rw [h4 b]
      simp only [decide_eq_decide]
      rw [e1, hB]
      omega
    rw [hS]
    dsimp only
    refine ⟨by rw [updF_self], by rw [updF_self], ?_, ?_, by rw [updF_self], ?_, ?_, ?_,
      rfl, rfl, rfl, rfl, ?_, ?_, ?_⟩
    · intro h
      have h' : (sz + twb) % 1024 ≠ 0 := h
      rw [updF_self]
      show ((sz / BLOCK_SIZE + 2 : Nat) : Int) = (((sz + twb) / BLOCK_SIZE + 2 : Nat) : Int)
      have hdiv : sz / BLOCK_SIZE = (sz + twb) / BLOCK_SIZE := by
        show sz / 1024 = (sz + twb) / 1024
        omega
      rw [hdiv]
    · intro b
      have hstep := updF_free_seq h4' b
      have hgoal : decide (b ≤ sz / BLOCK_SIZE + 1 + 1) =
          decide (b ≤ blocksOf (sz + twb) + 1) := by
        simp only [decide_eq_decide]
        rw [e2]
        have hd : sz / BLOCK_SIZE = sz / 1024 := rfl
        omega
      exact hstep.trans hgoal
    · rw [updF_self]
    · intro j hj
      rw [updF_ne _ _ hj]
    · intro g hg
      rw [updF_ne _ _ hg]
    · intro a ha2
      have ha2' : a < 11264 := ha2
      rw [memWrite_lo (by omega),
        storeLE4_lo (show a < REFERENCE_BLOCK_INDEX * BLOCK_SIZE +
          4 * (sz / BLOCK_SIZE + 2 - FIRST_INDIRECT_BLOCK) by
            show a < 11264 + 4 * (sz / 1024 + 2 - 12)
            omega),
        memSet_lo (show a < (sz / 1024 + 2) * 1024 by omega)]
    · intro a ha2 ha3
      have ha2' : 12288 ≤ a := ha2
      have ha3' : a < 2048 + sz := ha3
      rw [memWrite_lo (by omega),
        storeLE4_hi (show REFERENCE_BLOCK_INDEX * BLOCK_SIZE +
          4 * (sz / BLOCK_SIZE + 2 - FIRST_INDIRECT_BLOCK) + 4 ≤ a by
            show 11264 + 4 * (sz / 1024 + 2 - 12) + 4 ≤ a
            omega),
        memSet_lo (show a < (sz / 1024 + 2) * 1024 by omega)]
    · intro j hj
      rw [memWrite_mid (by omega) (by omega)]
      have e : 2 * BLOCK_SIZE + sz + j - (2 * BLOCK_SIZE + sz) = j := by omega
      rw [e]
  · have ha : sz % 1024 ≠ 0 := halign
    have hS : iwriteNext i f buf bw twb sz s = { s with
        fs_data := memWrite s.fs_data (2 * BLOCK_SIZE + sz) (fun j => buf (bw + j)) twb,
        of_offset := updF s.of_offset f (sz + twb),
        inode_table := updF s.inode_table i
          { s.inode_table i with i_size := sz + twb } } := by
      unfold iwriteNext
      rw [if_neg halign]
    rw [hS]
    dsimp only
    refine ⟨by rw [updF_self], by rw [updF_self], ?_, ?_, by rw [updF_self], ?_, ?_, ?_,
      rfl, rfl, rfl, rfl, ?_, ?_, ?_⟩
    · intro h
      have h' : (sz + twb) % 1024 ≠ 0 := h
      rw [updF_self]
      show (s.inode_table i).i_data_block = (((sz + twb) / BLOCK_SIZE + 2 : Nat) : Int)
      rw [h3 halign]
      have hdiv : sz / BLOCK_SIZE = (sz + twb) / BLOCK_SIZE := by
        show sz / 1024 = (sz + twb) / 1024
        omega
      rw [hdiv]
    · intro b
      rw [h4 b]
      simp only [decide_eq_decide]
      rw [e1, e2]
      omega
    · rw [updF_self]
    · intro j hj
      rw [updF_ne _ _ hj]
    · intro g hg
      rw [updF_ne _ _ hg]
    · intro a ha2
      have ha2' : a < 11264 := ha2
      rw [memWrite_lo (by omega)]
    · intro a ha2 ha3
      have ha3' : a < 2048 + sz := ha3
      rw [memWrite_lo (by omega)]
    · intro j hj
      rw [memWrite_mid (by omega) (by omega)]
      have e : 2 * BLOCK_SIZE + sz + j - (2 * BLOCK_SIZE + sz) = j := by omega
      rw [e]

theorem writeDirectLoop_data (i f : Nat) (buf : Nat → Nat) :
    ∀ (fuel ws bw sz : Nat) (s : FSState),
      (s.inode_table i).i_size = sz →
      s.of_offset f = sz →
      (sz % BLOCK_SIZE ≠ 0 →
        (s.inode_table i).i_data_block = ((sz / BLOCK_SIZE + 1 : Nat) : Int)) →
      (∀ b, s.free_blocks b = decide (b ≤ blocksOf sz)) →
      sz + ws ≤ MAX_BYTES_DIRECT_DATA →
      (sz % 1024 + ws ≤ fuel * 1024 ∨ ws = 0) →
      ∃ s2, writeDirectLoop i f buf fuel ws bw s = (((bw + ws : Nat) : Int), s2) ∧
        (s2.inode_table i).i_size = sz + ws ∧
        s2.of_offset f = sz + ws ∧
        ((sz + ws) % BLOCK_SIZE ≠ 0 →
          (s2.inode_table i).i_data_block = (((sz + ws) / BLOCK_SIZE + 1 : Nat) : Int)) ∧
        (∀ b, s2.free_blocks b = decide (b ≤ blocksOf (sz + ws))) ∧
        (s2.inode_table i).i_node_type = (s.inode_table i).i_node_type ∧
        (∀ k, (s2.inode_table i).i_block k =
          if blocksOf sz ≤ k ∧ k < blocksOf (sz + ws) then ((k + 1 : Nat) : Int)
          else (s.inode_table i).i_block k) ∧
        (∀ j, j ≠ i → s2.inode_table j = s.inode_table j) ∧
        (∀ g, g ≠ f → s2.of_offset g = s.of_offset g) ∧
        s2.freeinode_ts = s.freeinode_ts ∧
        s2.of_inumber = s.of_inumber ∧
        s2.free_open_file_entries = s.free_open_file_entries ∧
        s2.dir = s.dir ∧
        (∀ a, a < BLOCK_SIZE + sz → s2.fs_data a = s.fs_data a) ∧
        (∀ j, j < ws → s2.fs_data (BLOCK_SIZE + sz + j) = buf (bw + j)) ∧
        (∀ a, BLOCK_SIZE + sz + ws ≤ a →
          s2.fs_data a =
            if BLOCK_SIZE * (blocksOf sz + 1) ≤ a ∧
                a < BLOCK_SIZE * (blocksOf (sz + ws) + 1)
            then 255 else s.fs_data a) := by
  intro fuel
  induction fuel with
  | zero =>
    intro ws bw sz s h1 h2 h3 h4 h5 h6
    have hws : ws = 0 := by omega
    subst hws
    refine ⟨s, rfl, by rw [Nat.add_zero]; exact h1, by rw [Nat.add_zero]; exact h2,
      by rw [Nat.add_zero]; exact h3, fun b => by rw [Nat.add_zero]; exact h4 b, rfl,
      fun k => by
        have hz : blocksOf (sz + 0) = blocksOf sz := congrArg blocksOf (Nat.add_zero sz)
        rw [if_neg (by rw [hz]; omega)], fun j _ => rfl,
      fun g _ => rfl, rfl, rfl, rfl, rfl, fun a _ => rfl,
      fun j hj => absurd hj (by omega),
      fun a ha => by
        have hz : blocksOf (sz + 0) = blocksOf sz := congrArg blocksOf (Nat.add_zero sz)
        rw [if_neg (by rw [hz]; omega)]⟩
  | succ n ih =>
    intro ws bw sz s h1 h2 h3 h4 h5 h6
    by_cases hws : ws = 0
    · subst hws
      refine ⟨s, rfl, by rw [Nat.add_zero]; exact h1, by rw [Nat.add_zero]; exact h2,
        by rw [Nat.add_zero]; exact h3, fun b => by rw [Nat.add_zero]; exact h4 b, rfl,
        fun k => by
          have hz : blocksOf (sz + 0) = blocksOf sz := congrArg blocksOf (Nat.add_zero sz)
          rw [if_neg (by rw [hz]; omega)], fun j _ => rfl,
        fun g _ => rfl, rfl, rfl, rfl, rfl, fun a _ => rfl,
        fun j hj => absurd hj (by omega),
        fun a ha => by
          have hz : blocksOf (sz + 0) = blocksOf sz := congrArg blocksOf (Nat.add_zero sz)
          rw [if_neg (by rw [hz]; omega)]⟩
    · rw [writeDirectLoop_step i f buf n ws bw sz s hws h1 h2 h3 h4 h5]
      set twb := min ws (BLOCK_SIZE - sz % BLOCK_SIZE) with htw
      have hB : (BLOCK_SIZE : Nat) = 1024 := rfl
      have htw' : twb = min ws (1024 - sz % 1024) := htw
      have h5'' : sz + ws ≤ 10240 := h5
      have hminle : twb ≤ ws := by omega
      have htwb : 0 < twb := by omega
      have hle : twb ≤ BLOCK_SIZE - sz % BLOCK_SIZE := by
        show twb ≤ 1024 - sz % 1024
        omega
      obtain ⟨F1, F2, F3, F4, F5, F6, F7, F8, F9, F10, F11, F12, F13, F14, F15⟩ :=
        dwriteNext_facts i f buf bw twb sz s h3 h4 htwb hle
      have hfuel : (sz + twb) % 1024 + (ws - twb) ≤ n * 1024 ∨ ws - twb = 0 := by
        rcases h6 with h6 | h6
        · omega
        · exact absurd h6 hws
      have h5' : sz + twb + (ws - twb) ≤ MAX_BYTES_DIRECT_DATA := by
        show sz + twb + (ws - twb) ≤ 10240
        omega
      obtain ⟨s2, heq, C1, C2, C3, C4, C5, C6, C7, C8, C9, C10, C11, C12, C13, C14, C15⟩ :=
        ih (ws - twb) (bw + twb) (sz + twb) (dwriteNext i f buf bw twb sz s)
          F1 F2 F3 F4 h5' hfuel
      have hsum : sz + twb + (ws - twb) = sz + ws := by omega
      have hbsum : bw + twb + (ws - twb) = bw + ws := by omega
      rw [hsum] at C1 C2 C3 C4 C6 C15
      rw [hbsum] at heq
      have e1 : blocksOf sz = (sz + 1023) / 1024 := rfl
      have e2 : blocksOf (sz + twb) = (sz + twb + 1023) / 1024 := rfl
      have e3 : blocksOf (sz + ws) = (sz + ws + 1023) / 1024 := rfl
      refine ⟨s2, heq, C1, C2, C3, C4, C5.trans F5, ?_,
        fun j hj => (C7 j hj).trans (F7 j hj), fun g hg => (C8 g hg).trans (F8 g hg),
        C9.trans F9, C10.trans F10, C11.trans F11, C12.trans F12, ?_, ?_, ?_⟩
      · intro k
        rw [C6 k, F6 k]
        by_cases hk1 : blocksOf sz ≤ k ∧ k < blocksOf (sz + ws)
        · rw [if_pos hk1]
          by_cases hk2 : blocksOf (sz + twb) ≤ k ∧ k < blocksOf (sz + ws)
          · rw [if_pos hk2]
          · rw [if_neg hk2, if_pos (by omega)]
        · rw [if_neg hk1, if_neg (by omega), if_neg (by omega)]
      · intro a ha
        rw [C13 a (by omega), F13 a ha]
      · intro j hj
        by_cases hjt : j < twb
        · rw [C13 (BLOCK_SIZE + sz + j) (by omega)]
          exact F14 j hjt
        · have hj2 : j - twb < ws - twb := by omega
          have hC := C14 (j - twb) hj2
          rw [show BLOCK_SIZE + (sz + twb) + (j - twb) = BLOCK_SIZE + sz + j from by omega,
            show bw + twb + (j - twb) = bw + j from by omega] at hC
          exact hC
      · intro a ha
        have ha' : 1024 + sz + ws ≤ a := ha
        rw [C15 a (by omega), F15 a (by omega)]
        have m1 : BLOCK_SIZE * (blocksOf sz + 1) = (sz + 1023) / 1024 * 1024 + 1024 := by
          rw [e1, hB]
          omega
        have m2 : BLOCK_SIZE * (blocksOf (sz + twb) + 1) =
            (sz + twb + 1023) / 1024 * 1024 + 1024 := by
          rw [e2, hB]
          omega
        have m3 : BLOCK_SIZE * (blocksOf (sz + ws) + 1) =
            (sz + ws + 1023) / 1024 * 1024 + 1024 := by
          rw [e3, hB]
          omega
        rw [m1, m2, m3]
        by_cases hz1 : (sz + twb + 1023) / 1024 * 1024 + 1024 ≤ a ∧
            a < (sz + ws + 1023) / 1024 * 1024 + 1024
        · rw [if_pos hz1, if_pos (by omega)]
        · rw [if_neg hz1]
          by_cases hz2 : (sz + 1023) / 1024 * 1024 + 1024 ≤ a ∧
              a < (sz + twb + 1023) / 1024 * 1024 + 1024
          · rw [if_pos hz2, if_pos (by omega)]
          · rw [if_neg hz2, if_neg (by omega)]

theorem writeIndirectLoop_data (i f : Nat) (buf : Nat → Nat) :
    ∀ (fuel ws bw sz : Nat) (s : FSState),
      (s.inode_table i).i_size = sz →
      s.of_offset f = sz →
      (sz % BLOCK_SIZE ≠ 0 →
        (s.inode_table i).i_data_block = ((sz / BLOCK_SIZE + 2 : Nat) : Int)) →
      (∀ b, s.free_blocks b = decide (b ≤ blocksOf sz + 1)) →
      MAX_BYTES_DIRECT_DATA ≤ sz →
      sz + ws ≤ MAX_BYTES →
      (s.inode_table i).i_block MAX_DIRECT_BLOCKS = ((REFERENCE_BLOCK_INDEX : Nat) : Int) →
      (ws < fuel ∨ ws = 0) →
      ∃ s2, writeIndirectLoop i f buf fuel ws bw s = (((bw + ws : Nat) : Int), s2) ∧
        (s2.inode_table i).i_size = sz + ws ∧
        s2.of_offset f = sz + ws ∧
        ((sz + ws) % BLOCK_SIZE ≠ 0 →
          (s2.inode_table i).i_data_block = (((sz + ws) / BLOCK_SIZE + 2 : Nat) : Int)) ∧
        (∀ b, s2.free_blocks b = decide (b ≤ blocksOf (sz + ws) + 1)) ∧
        (s2.inode_table i).i_node_type = (s.inode_table i).i_node_type ∧
        (s2.inode_table i).i_block = (s.inode_table i).i_block ∧
        (∀ j, j ≠ i → s2.inode_table j = s.inode_table j) ∧
        (∀ g, g ≠ f → s2.of_offset g = s.of_offset g) ∧
        s2.freeinode_ts = s.freeinode_ts ∧
        s2.of_inumber = s.of_inumber ∧
        s2.free_open_file_entries = s.free_open_file_entries ∧
        s2.dir = s.dir ∧
        (∀ a, a < REFERENCE_BLOCK_INDEX * BLOCK_SIZE → s2.fs_data a = s.fs_data a) ∧
        (∀ a, FIRST_INDIRECT_BLOCK * BLOCK_SIZE ≤ a → a < 2 * BLOCK_SIZE + sz →
          s2.fs_data a = s.fs_data a) ∧
        (∀ j, j < ws → s2.fs_data (2 * BLOCK_SIZE + sz + j) = buf (bw + j)) := by
  intro fuel
  induction fuel with
  | zero =>
    intro ws bw sz s h1 h2 h3 h4 hsz hub h7 hfu
    have hws : ws = 0 := by omega
    subst hws
    refine ⟨s, rfl, by rw [Nat.add_zero]; exact h1, by rw [Nat.add_zero]; exact h2,
      by rw [Nat.add_zero]; exact h3, fun b => by rw [Nat.add_zero]; exact h4 b, rfl,
      rfl, fun j _ => rfl, fun g _ => rfl, rfl, rfl, rfl, rfl, fun a _ => rfl,
      fun a _ _ => rfl, fun j hj => absurd hj (by omega)⟩
  | succ n ih =>
    intro ws bw sz s h1 h2 h3 h4 hsz hub h7 hfu
    by_cases hws : ws = 0
    · subst hws
      refine ⟨s, rfl, by rw [Nat.add_zero]; exact h1, by rw [Nat.add_zero]; exact h2,
        by rw [Nat.add_zero]; exact h3, fun b => by rw [Nat.add_zero]; exact h4 b, rfl,
        rfl, fun j _ => rfl, fun g _ => rfl, rfl, rfl, rfl, rfl, fun a _ => rfl,
        fun a _ _ => rfl, fun j hj => absurd hj (by omega)⟩
    · rw [writeIndirectLoop_step i f buf n ws bw sz s hws h1 h2 h3 h4 hub hsz h7]
      set twb := min ws (BLOCK_SIZE - sz % BLOCK_SIZE) with htw
      have hB : (BLOCK_SIZE : Nat) = 1024 := rfl
      have htw' : twb = min ws (1024 - sz % 1024) := htw
      have hsz' : 10240 ≤ sz := hsz
      have hub'' : sz + ws ≤ 272384 := hub
      have hminle : twb ≤ ws := by omega
      have htwb : 0 < twb := by omega
      have hle : twb ≤ BLOCK_SIZE - sz % BLOCK_SIZE := by
        show twb ≤ 1024 - sz % 1024
        omega
      have hub2 : sz + twb ≤ MAX_BYTES := by
        show sz + twb ≤ 272384
        omega
      obtain ⟨F1, F2, F3, F4, F5, F6, F7, F8, F9, F10, F11, F12, F13, F14, F15⟩ :=
        iwriteNext_facts i f buf bw twb sz s h3 h4 htwb hle hsz hub2
      have hfuel : ws - twb < n ∨ ws - twb = 0 := by
        rcases hfu with hfu | hfu
        · omega
        · exact absurd hfu hws
      have hsz2 : MAX_BYTES_DIRECT_DATA ≤ sz + twb := by
        show 10240 ≤ sz + twb
        omega
      have hub3 : sz + twb + (ws - twb) ≤ MAX_BYTES := by
        show sz + twb + (ws - twb) ≤ 272384
        omega
      have h7' : ((iwriteNext i f buf bw twb sz s).inode_table i).i_block MAX_DIRECT_BLOCKS =
          ((REFERENCE_BLOCK_INDEX : Nat) : Int) := by
        rw [F6]
        exact h7
      obtain ⟨s2, heq, C1, C2, C3, C4, C5, C6, C7, C8, C9, C10, C11, C12, C13, C14, C15⟩ :=
        ih (ws - twb) (bw + twb) (sz + twb) (iwriteNext i f buf bw twb sz s)
          F1 F2 F3 F4 hsz2 hub3 h7' hfuel
      have hsum : sz + twb + (ws - twb) = sz + ws := by omega
      have hbsum : bw + twb + (ws - twb) = bw + ws := by omega
      rw [hsum] at C1 C2 C3 C4
      rw [hbsum] at heq
      refine ⟨s2, heq, C1, C2, C3, C4, C5.trans F5, C6.trans F6,
        fun j hj => (C7 j hj).trans (F7 j hj), fun g hg => (C8 g hg).trans (F8 g hg),
        C9.trans F9, C10.trans F10, C11.trans F11, C12.trans F12, ?_, ?_, ?_⟩
      · intro a ha
        rw [C13 a ha, F13 a ha]
      · intro a ha hb
        have hb' : a < 2048 + sz := hb
        rw [C14 a ha (by show a < 2 * 1024 + (sz + twb); omega), F14 a ha hb]
      · intro j hj
        by_cases hjt : j < twb
        · rw [C14 (2 * BLOCK_SIZE + sz + j)
            (by show 12 * 1024 ≤ 2 * 1024 + sz + j; omega)
            (by show 2 * 1024 + sz + j < 2 * 1024 + (sz + twb); omega)]
          exact F15 j hjt
        · have hj2 : j - twb < ws - twb := by omega
          have hC := C15 (j - twb) hj2
          rw [show 2 * BLOCK_SIZE + (sz + twb) + (j - twb) = 2 * BLOCK_SIZE + sz + j from
              by omega,
            show bw + twb + (j - twb) = bw + j from by omega] at hC
          exact hC

theorem readDirectLoop_data (f base : Nat) (v : Nat → Nat) :
    ∀ (fuel r total off : Nat) (dest : Nat → Nat) (s : FSState),
      s.of_offset f = off →
      off + r ≤ MAX_BYTES_DIRECT_DATA →
      (∀ j, j < r → s.fs_data (BLOCK_SIZE + off + j) = v (off + j)) →
      r ≤ fuel →
      ∃ dest2 s2,
        readDirectLoop f base fuel r total dest s = (((total + r : Nat) : Int), dest2, s2) ∧
        (∀ a, a < base + total → dest2 a = dest a) ∧
        (∀ a, base + total + r ≤ a → dest2 a = dest a) ∧
        (∀ j, j < r → dest2 (base + total + j) = v (off + j)) ∧
        s2.of_offset f = off + r ∧
        (∀ g, g ≠ f → s2.of_offset g = s.of_offset g) ∧
        s2.inode_table = s.inode_table ∧ s2.fs_data = s.fs_data ∧
        s2.freeinode_ts = s.freeinode_ts ∧ s2.free_blocks = s.free_blocks ∧
        s2.of_inumber = s.of_inumber ∧
        s2.free_open_file_entries = s.free_open_file_entries ∧ s2.dir = s.dir := by
  intro fuel
  induction fuel with
  | zero =>
    intro r total off dest s h1 h2 h3 hfu
    have hr : r = 0 := by omega
    subst hr
    exact ⟨dest, s, rfl, fun a _ => rfl, fun a _ => rfl, fun j hj => absurd hj (by omega),
      by rw [Nat.add_zero]; exact h1, fun g _ => rfl, rfl, rfl, rfl, rfl, rfl, rfl, rfl⟩
  | succ n ih =>
    intro r total off dest s h1 h2 h3 hfu
    unfold readDirectLoop
    rw [h1]
    dsimp only
    by_cases hr : r = 0
    · rw [if_pos (Or.inl hr)]
      subst hr
      exact ⟨dest, s, rfl, fun a _ => rfl, fun a _ => rfl, fun j hj => absurd hj (by omega),
        by rw [Nat.add_zero]; exact h1, fun g _ => rfl, rfl, rfl, rfl, rfl, rfl, rfl, rfl⟩
    · have h2' : off + r ≤ 10240 := h2
      rw [if_neg (by
        push_neg
        refine ⟨hr, ?_⟩
        show off / 1024 + 1 ≤ 10
        omega)]
      rw [if_neg (not_not_intro (valid_block_number_cast (by
        show off / 1024 + 1 < 1024
        omega)))]
      set trb := min r (BLOCK_SIZE - off % BLOCK_SIZE) with htr
      have htr' : trb = min r (1024 - off % 1024) := htr
      have htrb : 0 < trb := by omega
      have htrle : trb ≤ r := by omega
      have hsplit : (if r + off % BLOCK_SIZE > BLOCK_SIZE then
          (BLOCK_SIZE - off % BLOCK_SIZE, r - (BLOCK_SIZE - off % BLOCK_SIZE))
          else (r, 0)) = (trb, r - trb) := by
        by_cases hbig : r + off % BLOCK_SIZE > BLOCK_SIZE
        · rw [if_pos hbig]
          have hb2 : r + off % 1024 > 1024 := hbig
          have : trb = 1024 - off % 1024 := by omega
          rw [Prod.mk.injEq]
          constructor
          · show (1024 : Nat) - off % 1024 = trb
            omega
          · show r - ((1024 : Nat) - off % 1024) = r - trb
            omega
        · rw [if_neg hbig]
          have hb2 : ¬ (r + off % 1024 > 1024) := hbig
          rw [Prod.mk.injEq]
          constructor
          · show r = trb
            omega
          · show (0 : Nat) = r - trb
            omega
      rw [hsplit]
      dsimp only
      obtain ⟨dest2, s2, heq, D1, D2, D3, D4, D5, D6, D7, D8, D9, D10, D11, D12⟩ :=
        ih (r - trb) (total + trb) (off + trb)
          (memWrite dest (base + total)
            (fun j => s.fs_data ((off / BLOCK_SIZE + 1) * BLOCK_SIZE + off % BLOCK_SIZE + j))
            trb)
          { s with of_offset := updF s.of_offset f (off + trb) }
          (updF_self _ _ _) (by show off + trb + (r - trb) ≤ 10240; omega)
          (fun j hj => by
            show s.fs_data (BLOCK_SIZE + (off + trb) + j) = v (off + trb + j)
            have e : BLOCK_SIZE + (off + trb) + j = BLOCK_SIZE + off + (trb + j) := by omega
            rw [e, h3 (trb + j) (by omega)]
            rw [show off + (trb + j) = off + trb + j from by omega])
          (by omega)
      have hsum : total + trb + (r - trb) = total + r := by omega
      have hosum : off + trb + (r - trb) = off + r := by omega
      rw [hsum] at heq
      rw [hosum] at D4
      refine ⟨dest2, s2, heq, ?_, ?_, ?_, D4, ?_, D6, D7, D8, D9, D10, D11, D12⟩
      · intro a ha
        rw [D1 a (by omega), memWrite_lo (by omega)]
      · intro a ha
        rw [D2 a (by omega), memWrite_hi (by omega)]
      · intro j hj
        by_cases hjt : j < trb
        · rw [D1 (base + total + j) (by omega),
            memWrite_mid (by omega) (by omega)]
          have e : base + total + j - (base + total) = j := by omega
          rw [e]
          have e2 : (off / BLOCK_SIZE + 1) * BLOCK_SIZE + off % BLOCK_SIZE + j =
              BLOCK_SIZE + off + j := by
            show (off / 1024 + 1) * 1024 + off % 1024 + j = 1024 + off + j
            omega
          rw [e2]
          exact h3 j (by omega)
        · have hD := D3 (j - trb) (by omega)
          rw [show base + (total + trb) + (j - trb) = base + total + j from by omega,
            show off + trb + (j - trb) = off + j from by omega] at hD
          exact hD
      · intro g hg
        exact (D5 g hg).trans (updF_ne _ _ hg)

theorem readIndirectLoop_data (f base : Nat) (v : Nat → Nat) :
    ∀ (fuel r total off : Nat) (dest : Nat → Nat) (s : FSState),
      s.of_offset f = off →
      off + r ≤ MAX_BYTES →
      (∀ j, j < r → s.fs_data (2 * BLOCK_SIZE + off + j) = v (off + j)) →
      r ≤ fuel →
      ∃ dest2 s2,
        readIndirectLoop f base fuel r total dest s = (((total + r : Nat) : Int), dest2, s2) ∧
        (∀ a, a < base + total → dest2 a = dest a) ∧
        (∀ a, base + total + r ≤ a → dest2 a = dest a) ∧
        (∀ j, j < r → dest2 (base + total + j) = v (off + j)) ∧
        s2.of_offset f = off + r ∧
        (∀ g, g ≠ f → s2.of_offset g = s.of_offset g) ∧
        s2.inode_table = s.inode_table ∧ s2.fs_data = s.fs_data ∧
        s2.freeinode_ts = s.freeinode_ts ∧ s2.free_blocks = s.free_blocks ∧
        s2.of_inumber = s.of_inumber ∧
        s2.free_open_file_entries = s.free_open_file_entries ∧ s2.dir = s.dir := by
  intro fuel
  induction fuel with
  | zero =>
    intro r total off dest s h1 h2 h3 hfu
    have hr : r = 0 := by omega
    subst hr
    exact ⟨dest, s, rfl, fun a _ => rfl, fun a _ => rfl, fun j hj => absurd hj (by omega),
      by rw [Nat.add_zero]; exact h1, fun g _ => rfl, rfl, rfl, rfl, rfl, rfl, rfl, rfl⟩
  | succ n ih =>
    intro r total off dest s h1 h2 h3 hfu
    unfold readIndirectLoop
    by_cases hr : r = 0
    · rw [if_pos hr]
      subst hr
      exact ⟨dest, s, rfl, fun a _ => rfl, fun a _ => rfl, fun j hj => absurd hj (by omega),
        by rw [Nat.add_zero]; exact h1, fun g _ => rfl, rfl, rfl, rfl, rfl, rfl, rfl, rfl⟩
    · rw [if_neg hr, h1]
      dsimp only
      have h2' : off + r ≤ 272384 := h2
      rw [if_neg (not_not_intro (valid_block_number_cast (by
        show off / 1024 + 2 < 1024
        omega)))]
      set trb := min r (BLOCK_SIZE - off % BLOCK_SIZE) with htr
      have htr' : trb = min r (1024 - off % 1024) := htr
      have htrb : 0 < trb := by omega
      have htrle : trb ≤ r := by omega
      have hsplit : (if r + off % BLOCK_SIZE > BLOCK_SIZE then
          (BLOCK_SIZE - off % BLOCK_SIZE, r - (BLOCK_SIZE - off % BLOCK_SIZE))
          else (r, 0)) = (trb, r - trb) := by
        by_cases hbig : r + off % BLOCK_SIZE > BLOCK_SIZE
        · rw [if_pos hbig]
          have hb2 : r + off % 1024 > 1024 := hbig
          rw [Prod.mk.injEq]
          constructor
          · show (1024 : Nat) - off % 1024 = trb
            omega
          · show r - ((1024 : Nat) - off % 1024) = r - trb
            omega
        · rw [if_neg hbig]
          have hb2 : ¬ (r + off % 1024 > 1024) := hbig
          rw [Prod.mk.injEq]
          constructor
          · show r = trb
            omega
          · show (0 : Nat) = r - trb
            omega
      rw [hsplit]
      dsimp only
      obtain ⟨dest2, s2, heq, D1, D2, D3, D4, D5, D6, D7, D8, D9, D10, D11, D12⟩ :=
        ih (r - trb) (total + trb) (off + trb)
          (memWrite dest (base + total)
            (fun j => s.fs_data ((off / BLOCK_SIZE + 2) * BLOCK_SIZE + off % BLOCK_SIZE + j))
            trb)
          { s with of_offset := updF s.of_offset f (off + trb) }
          (updF_self _ _ _) (by show off + trb + (r - trb) ≤ 272384; omega)
          (fun j hj => by
            show s.fs_data (2 * BLOCK_SIZE + (off + trb) + j) = v (off + trb + j)
            have e : 2 * BLOCK_SIZE + (off + trb) + j = 2 * BLOCK_SIZE + off + (trb + j) := by
              omega
            rw [e, h3 (trb + j) (by omega)]
            rw [show off + (trb + j) = off + trb + j from by omega])
          (by omega)
      have hsum : total + trb + (r - trb) = total + r := by omega
      have hosum : off + trb + (r - trb) = off + r := by omega
      rw [hsum] at heq
      rw [hosum] at D4
      refine ⟨dest2, s2, heq, ?_, ?_, ?_, D4, ?_, D6, D7, D8, D9, D10, D11, D12⟩
      · intro a ha
        rw [D1 a (by omega), memWrite_lo (by omega)]
      · intro a ha
        rw [D2 a (by omega), memWrite_hi (by omega)]
      · intro j hj
        by_cases hjt : j < trb
        · rw [D1 (base + total + j) (by omega),
            memWrite_mid (by omega) (by omega)]
          have e : base + total + j - (base + total) = j := by omega
          rw [e]
          have e2 : (off / BLOCK_SIZE + 2) * BLOCK_SIZE + off % BLOCK_SIZE + j =
              2 * BLOCK_SIZE + off + j := by
            show (off / 1024 + 2) * 1024 + off % 1024 + j = 2 * 1024 + off + j
            omega
          rw [e2]
          exact h3 j (by omega)
        · have hD := D3 (j - trb) (by omega)
          rw [show base + (total + trb) + (j - trb) = base + total + j from by omega,
            show off + trb + (j - trb) = off + j from by omega] at hD
          exact hD
      · intro g hg
        exact (D5 g hg).trans (updF_ne _ _ hg)

theorem tfs_handle_indirect_block_facts (i : Nat) (s : FSState) (m : Nat)
    (hfree : ∀ b, s.free_blocks b = decide (b ≤ m)) (hlt : m + 1 < DATA_BLOCKS) :
    ∃ s4, tfs_handle_indirect_block i s = (0, s4) ∧
      (s4.inode_table i).i_size = (s.inode_table i).i_size ∧
      s4.of_offset = s.of_offset ∧
      (s4.inode_table i).i_data_block = ((m + 1 : Nat) : Int) ∧
      (∀ b, s4.free_blocks b = decide (b ≤ m + 1)) ∧
      (s4.inode_table i).i_block MAX_DIRECT_BLOCKS = ((m + 1 : Nat) : Int) ∧
      (∀ k, k ≠ MAX_DIRECT_BLOCKS →
        (s4.inode_table i).i_block k = (s.inode_table i).i_block k) ∧
      (s4.inode_table i).i_node_type = (s.inode_table i).i_node_type ∧
      (∀ j, j ≠ i → s4.inode_table j = s.inode_table j) ∧
      s4.freeinode_ts = s.freeinode_ts ∧
      s4.of_inumber = s.of_inumber ∧
      s4.free_open_file_entries = s.free_open_file_entries ∧
      s4.dir = s.dir ∧
      (∀ a, a < (m + 1) * BLOCK_SIZE → s4.fs_data a = s.fs_data a) ∧
      (∀ a, (m + 1) * BLOCK_SIZE + 8 ≤ a → s4.fs_data a = s.fs_data a) := by
  rw [tfs_handle_indirect_block_seq i s m hfree hlt]
  dsimp only
  refine ⟨_, rfl, ?_, rfl, ?_, ?_, ?_, ?_, ?_, ?_, rfl, rfl, rfl, rfl, ?_, ?_⟩
  · simp only [updF_self]
  · simp only [updF_self]
  · exact updF_free_seq hfree
  · simp only [updF_self]
  · intro k hk
    simp only [updF_self]
    rw [updF_ne _ _ hk]
  · simp only [updF_self]
  · intro j hj
    exact updF_ne _ _ hj
  · intro a ha
    exact memSet_lo ha
  · intro a ha
    exact memSet_hi (by omega)

theorem tfs_init_eq : tfs_init = (0, initFS) := rfl

theorem inode_create_file_initFS : inode_create T_FILE initFS = (((1 : Nat) : Int), fileCreatedFS) := by
  unfold inode_create
  rw [firstFit_eq (fun i => !initFS.freeinode_ts i) INODE_TABLE_SIZE 0 1 (by omega) (by decide)
    (fun j h1 h2 => by interval_cases j; decide) (by decide)]
  rfl

theorem find_in_dir_none (inumber : Int) (sub_name : List Char) (s : FSState)
    (hnone : ∀ k, k < MAX_DIR_ENTRIES →
      ((s.dir k).d_inumber != -1 && cstrncmpEq (s.dir k).d_name sub_name MAX_FILE_NAME)
        = false) :
    find_in_dir inumber sub_name s = -1 := by
  unfold find_in_dir
  by_cases h1 : ¬ valid_inumber inumber = true
  · rw [if_pos h1]
  · rw [if_neg h1]
    by_cases h2 : (s.inode_table inumber.toNat).i_node_type ≠ T_DIRECTORY
    · rw [if_pos h2]
    · rw [if_neg h2]
      by_cases h3 : ¬ valid_block_number (s.inode_table inumber.toNat).i_data_block = true
      · rw [if_pos h3]
      · rw [if_neg h3]
        rw [firstFit_none _ MAX_DIR_ENTRIES 0 (fun j _ hj => hnone j (by omega))]

theorem find_in_dir_first (inumber : Int) (sub_name : List Char) (s : FSState)
    (hv : valid_inumber inumber = true)
    (htype : (s.inode_table inumber.toNat).i_node_type = T_DIRECTORY)
    (hblock : valid_block_number (s.inode_table inumber.toNat).i_data_block = true)
    (hmatch : ((s.dir 0).d_inumber != -1 &&
      cstrncmpEq (s.dir 0).d_name sub_name MAX_FILE_NAME) = true) :
    find_in_dir inumber sub_name s = (s.dir 0).d_inumber := by
  unfold find_in_dir
  rw [if_neg (not_not_intro hv), if_neg (not_not_intro htype),
    if_neg (not_not_intro hblock)]
  rw [firstFit_eq _ MAX_DIR_ENTRIES 0 0 (by omega) (by decide)
    (fun j h1 h2 => absurd h2 (by omega)) hmatch]

theorem add_dir_entry_first (inumber sub_inumber : Int) (sub_name : List Char) (s : FSState)
    (hv1 : valid_inumber inumber = true) (hv2 : valid_inumber sub_inumber = true)
    (htype : (s.inode_table inumber.toNat).i_node_type = T_DIRECTORY)
    (hlen : ¬ sub_name.length = 0)
    (hblock : valid_block_number (s.inode_table inumber.toNat).i_data_block = true)
    (hfirst : (s.dir 0).d_inumber = -1) :
    add_dir_entry inumber sub_inumber sub_name s = (0, { s with
      dir := updF s.dir 0 ⟨sub_name.take (MAX_FILE_NAME - 1), sub_inumber⟩ }) := by
  unfold add_dir_entry
  rw [if_neg (not_not_intro ⟨hv1, hv2⟩), if_neg (not_not_intro htype), if_neg hlen,
    if_neg (not_not_intro hblock)]
  rw [firstFit_eq _ MAX_DIR_ENTRIES 0 0 (by omega) (by decide)
    (fun j h1 h2 => absurd h2 (by omega))
    (by show ((s.dir 0).d_inumber == -1) = true; rw [hfirst]; rfl)]

theorem add_to_open_file_table_first (inumber : Int) (offset : Nat) (s : FSState)
    (hfree : s.free_open_file_entries 0 = false) :
    add_to_open_file_table inumber offset s = (((0 : Nat) : Int), { s with
      free_open_file_entries := updF s.free_open_file_entries 0 true,
      of_inumber := updF s.of_inumber 0 inumber,
      of_offset := updF s.of_offset 0 offset }) := by
  unfold add_to_open_file_table
  rw [firstFit_eq _ MAX_OPEN_FILES 0 0 (by omega) (by decide)
    (fun j h1 h2 => absurd h2 (by omega))
    (by show (!s.free_open_file_entries 0) = true; rw [hfree]; rfl)]

theorem postCreate_eq (name : List Char) (hv : valid_pathname name = true) :
    postCreate name = (0, createdFS name) := by
  have hlen1 : name.length > 1 := by
    unfold valid_pathname at hv
    exact of_decide_eq_true ((Bool.and_eq_true _ _).mp hv).1
  have htail : ¬ name.tail.length = 0 := by
    rw [List.length_tail]
    omega
  unfold postCreate
  rw [show tfs_init.2 = initFS from rfl]
  unfold tfs_open
  rw [if_neg (not_not_intro hv)]
  have hlook : tfs_lookup name initFS = -1 := by
    unfold tfs_lookup
    rw [if_neg (not_not_intro hv)]
    exact find_in_dir_none ROOT_DIR_INUM name.tail initFS
      (fun k hk => by interval_cases k <;> exact Bool.false_and _)
  dsimp only
  rw [hlook]
  rw [if_neg (by decide : ¬ ((0 : Int) ≤ -1)), if_pos (by decide : TFS_O_CREAT &&& TFS_O_CREAT ≠ 0)]
  rw [inode_create_file_initFS]
  dsimp only
  rw [if_neg (natCast_ne_neg_one 1)]
  rw [add_dir_entry_first ROOT_DIR_INUM ((1 : Nat) : Int) name.tail fileCreatedFS
    (by decide) (by decide) (by decide) htail (by decide) (by decide)]
  dsimp only
  rw [if_neg (by decide : ¬ ((0 : Int) = -1))]
  rw [add_to_open_file_table_first ((1 : Nat) : Int) 0
    ({ fileCreatedFS with
      dir := updF fileCreatedFS.dir 0
        ⟨name.tail.take (MAX_FILE_NAME - 1), ((1 : Nat) : Int)⟩ }) rfl]
  rw [Prod.mk.injEq]
  refine ⟨by decide, ?_⟩
  unfold createdFS
  congr 1
  · funext b
    by_cases h1 : b = 1
    · subst h1
      simp [fileCreatedFS, initFS, zeroFS, updF]
    · by_cases h0 : b = 0
      · subst h0
        simp [fileCreatedFS, initFS, zeroFS, updF]
      · simp only [fileCreatedFS, initFS, zeroFS, updF, if_neg h0, if_neg h1]
        have : ¬ (b ≤ 1) := by omega
        simp [this]
  · funext b
    by_cases h1 : b = 1
    · subst h1
      simp [fileCreatedFS, initFS, zeroFS, updF]
    · by_cases h0 : b = 0
      · subst h0
        simp [fileCreatedFS, initFS, zeroFS, updF]
      · simp [fileCreatedFS, initFS, zeroFS, updF, h0, h1]
  · funext b
    by_cases h0 : b = 0
    · subst h0
      simp [fileCreatedFS, initFS, zeroFS, updF]
    · simp only [fileCreatedFS, initFS, zeroFS, updF, if_neg h0]
      have : ¬ (b ≤ 0) := by omega
      simp [this]
  · funext b
    by_cases h0 : b = 0
    · subst h0
      simp [fileCreatedFS, initFS, zeroFS, updF]
    · simp [fileCreatedFS, initFS, zeroFS, updF, h0]

theorem tfs_write_createdFS (name : List Char) (buf : Nat → Nat) (n : Nat)
    (h0 : 0 < n) (hmax : n ≤ MAX_BYTES) :
    ∃ s3, tfs_write 0 buf n (createdFS name) = (((n : Nat) : Int), s3) ∧
      (s3.inode_table 1).i_size = n ∧
      s3.inode_table 0 = (createdFS name).inode_table 0 ∧
      s3.dir = (createdFS name).dir ∧
      s3.free_open_file_entries = (createdFS name).free_open_file_entries ∧
      s3.of_inumber = (createdFS name).of_inumber ∧
      (∀ j, j < n → j < MAX_BYTES_DIRECT_DATA → s3.fs_data (BLOCK_SIZE + j) = buf j) ∧
      (∀ p, MAX_BYTES_DIRECT_DATA ≤ p → p < n → s3.fs_data (2 * BLOCK_SIZE + p) = buf p) ∧
      (∀ k, k < blocksOf (min n MAX_BYTES_DIRECT_DATA) →
        (s3.inode_table 1).i_block k = ((k + 1 : Nat) : Int)) ∧
      (n ≤ MAX_BYTES_DIRECT_DATA → ∀ a, n ≤ a → a < BLOCK_SIZE * blocksOf n →
        s3.fs_data (BLOCK_SIZE + a) = 255) := by
  have hB : (BLOCK_SIZE : Nat) = 1024 := rfl
  have hmax' : n ≤ 272384 := hmax
  unfold tfs_write
  rw [if_neg (by omega : ¬ n = 0)]
  rw [get_open_file_entry_some (by decide : valid_file_handle 0 = true)]
  dsimp only
  rw [show ((0 : Int)).toNat = 0 from rfl]
  rw [show (createdFS name).of_inumber 0 = (1 : Int) from rfl]
  rw [inode_get_some (by decide : valid_inumber 1 = true)]
  dsimp only
  rw [show ((1 : Int)).toNat = 1 from rfl]
  rw [show ((createdFS name).inode_table 1).i_size = 0 from rfl]
  by_cases hn : n ≤ MAX_BYTES_DIRECT_DATA
  · have hn' : n ≤ 10240 := hn
    rw [if_pos (show 0 + n ≤ MAX_BYTES_DIRECT_DATA by show (0 : Nat) + n ≤ 10240; omega)]
    unfold tfs_write_direct_region
    obtain ⟨s2, heq, C1, C2, C3, C4, C5, C6, C7, C8, C9, C10, C11, C12, C13, C14, C15⟩ :=
      writeDirectLoop_data 1 0 buf REFERENCE_BLOCK_INDEX n 0 0 (createdFS name)
        rfl rfl (fun h => absurd rfl h) (fun b => rfl)
        (by show (0 : Nat) + n ≤ 10240; omega)
        (Or.inl (by show (0 : Nat) % 1024 + n ≤ 11264; omega))
    simp only [Nat.zero_add, Nat.add_zero] at heq C1 C2 C3 C4 C6 C13 C14 C15
    refine ⟨s2, heq, C1, C7 0 (by omega), C12, C11, C10, ?_, ?_, ?_, ?_⟩
    · intro j hj _
      exact C14 j hj
    · intro p hp1 hp2
      exact absurd (show (10240 : Nat) ≤ p from hp1) (by omega)
    · have hmin : min n MAX_BYTES_DIRECT_DATA = n := by
        show min n 10240 = n
        omega
      intro k hk
      rw [hmin] at hk
      rw [C6 k, if_pos ⟨show blocksOf 0 ≤ k from Nat.zero_le k, hk⟩]
    · intro _ a ha1 ha2
      have hC := C15 (BLOCK_SIZE + a) (by omega)
      have m1 : BLOCK_SIZE * (blocksOf 0 + 1) = 1024 := rfl
      have m2 : BLOCK_SIZE * (blocksOf n + 1) = (n + 1023) / 1024 * 1024 + 1024 := by
        rw [show blocksOf n = (n + 1023) / 1024 from rfl, hB]
        omega
      have m3 : a < (n + 1023) / 1024 * 1024 := by
        have := ha2
        rw [show BLOCK_SIZE * blocksOf n = 1024 * ((n + 1023) / 1024) from by
          rw [show blocksOf n = (n + 1023) / 1024 from rfl, hB]] at this
        omega
      rw [m1, m2] at hC
      rw [if_pos ⟨by omega, by show 1024 + a < (n + 1023) / 1024 * 1024 + 1024; omega⟩] at hC
      exact hC
  · have hn' : ¬ n ≤ 10240 := hn
    rw [if_neg (show ¬ (0 + n ≤ MAX_BYTES_DIRECT_DATA) by show ¬ ((0 : Nat) + n ≤ 10240); omega)]
    rw [if_neg (show ¬ ((0 : Nat) ≥ MAX_BYTES_DIRECT_DATA) by show ¬ ((0 : Nat) ≥ 10240); omega)]
    rw [show MAX_BYTES_DIRECT_DATA - 0 = MAX_BYTES_DIRECT_DATA from rfl]
    unfold tfs_write_direct_region
    obtain ⟨s2, heq, C1, C2, C3, C4, C5, C6, C7, C8, C9, C10, C11, C12, C13, C14, C15⟩ :=
      writeDirectLoop_data 1 0 buf REFERENCE_BLOCK_INDEX MAX_BYTES_DIRECT_DATA 0 0
        (createdFS name) rfl rfl (fun h => absurd rfl h) (fun b => rfl)
        (by decide) (Or.inl (by decide))
    simp only [Nat.zero_add, Nat.add_zero] at heq C1 C2 C3 C4 C6 C13 C14 C15
    rw [heq]
    dsimp only
    rw [if_pos (show (s2.inode_table 1).i_block MAX_DIRECT_BLOCKS = -1 by
      rw [C6 MAX_DIRECT_BLOCKS, if_neg (by decide)]
      rfl)]
    have hfree10 : ∀ b, s2.free_blocks b = decide (b ≤ 10) := by
      intro b
      rw [C4 b]
      rfl
    obtain ⟨s4, hh, H1, H2, H3, H4, H5, H6, H7, H8, H9, H10, H11, H12, H13, H14⟩ :=
      tfs_handle_indirect_block_facts 1 s2 10 hfree10 (by decide)
    rw [hh]
    dsimp only
    rw [if_neg (natCast_ne_neg_one MAX_BYTES_DIRECT_DATA)]
    unfold tfs_write_indirect_region
    obtain ⟨s5, heq2, I1, I2, I3, I4, I5, I6, I7, I8, I9, I10, I11, I12, I13, I14, I15⟩ :=
      writeIndirectLoop_data 1 0 (fun j => buf (MAX_BYTES_DIRECT_DATA + j))
        (n - MAX_BYTES_DIRECT_DATA + 1) (n - MAX_BYTES_DIRECT_DATA) 0
        MAX_BYTES_DIRECT_DATA s4
        (H1.trans C1) ((congrFun H2 0).trans C2) (fun h => absurd rfl h)
        (fun b => H4 b) (le_refl _)
        (by show (10240 : Nat) + (n - 10240) ≤ 272384; omega)
        H5 (Or.inl (Nat.lt_succ_self _))
    simp only [Nat.zero_add] at heq2 I15
    rw [heq2]
    dsimp only
    rw [if_neg (natCast_ne_neg_one _)]
    have esum : MAX_BYTES_DIRECT_DATA + (n - MAX_BYTES_DIRECT_DATA) = n := by
      show (10240 : Nat) + (n - 10240) = n
      omega
    rw [esum] at I1
    refine ⟨s5, ?_, I1, (I7 0 (by omega)).trans ((H8 0 (by omega)).trans (C7 0 (by omega))),
      I12.trans (H12.trans C12), I11.trans (H11.trans C11), I10.trans (H10.trans C10),
      ?_, ?_, ?_, fun hc => absurd hc hn⟩
    · rw [Prod.mk.injEq]
      refine ⟨?_, rfl⟩
      show ((10240 : Nat) : Int) + (((n - 10240 : Nat)) : Int) = ((n : Nat) : Int)
      omega
    · intro j hjn hj10
      have hj10b : j < 10240 := hj10
      exact (I13 (BLOCK_SIZE + j) (by show (1024 : Nat) + j < 11264; omega)).trans
        ((H13 (BLOCK_SIZE + j) (by show (1024 : Nat) + j < 11264; omega)).trans
          (C14 j hj10))
    · intro p hp1 hp2
      have hp1' : (10240 : Nat) ≤ p := hp1
      have hI := I15 (p - MAX_BYTES_DIRECT_DATA)
        (by show p - 10240 < n - 10240; omega)
      rw [show 2 * BLOCK_SIZE + MAX_BYTES_DIRECT_DATA + (p - MAX_BYTES_DIRECT_DATA) =
          2 * BLOCK_SIZE + p from by show (2048 : Nat) + 10240 + (p - 10240) = 2048 + p; omega]
        at hI
      simp only [show MAX_BYTES_DIRECT_DATA + (p - MAX_BYTES_DIRECT_DATA) = p from by
        show (10240 : Nat) + (p - 10240) = p; omega] at hI
      exact hI
    · have hmin : min n MAX_BYTES_DIRECT_DATA = MAX_BYTES_DIRECT_DATA := by
        show min n 10240 = 10240
        omega
      intro k hk
      rw [hmin] at hk
      refine (congrFun I6 k).trans ((H6 k (by
        show k ≠ 10
        have hk10 : k < 10 := hk
        omega)).trans ?_)
      rw [C6 k, if_pos ⟨show blocksOf 0 ≤ k from Nat.zero_le k, hk⟩]

theorem reopen_read_data (name : List Char) (buf dest : Nat → Nat) (n : Nat) (t : FSState)
    (hv : valid_pathname name = true)
    (hlen : name.tail.length ≤ MAX_FILE_NAME - 1)
    (h0 : 0 < n) (hmax : n ≤ MAX_BYTES)
    (hroot : t.inode_table 0 = ⟨T_DIRECTORY, BLOCK_SIZE, 0, fun _ => -1⟩)
    (hdir0 : t.dir 0 = ⟨name.tail.take (MAX_FILE_NAME - 1), 1⟩)
    (hsz : (t.inode_table 1).i_size = n)
    (hfree : ∀ k, t.free_open_file_entries k = false)
    (hdata1 : ∀ j, j < n → j < MAX_BYTES_DIRECT_DATA → t.fs_data (BLOCK_SIZE + j) = buf j)
    (hdata2 : ∀ p, MAX_BYTES_DIRECT_DATA ≤ p → p < n →
      t.fs_data (2 * BLOCK_SIZE + p) = buf p) :
    ∃ dest2 s7,
      tfs_read (tfs_open name 0 t).1 dest n (tfs_open name 0 t).2 =
        (((n : Nat) : Int), dest2, s7) ∧
      ∀ j, j < n → dest2 j = buf j := by
  have hmax' : n ≤ 272384 := hmax
  have hopen : tfs_open name 0 t = (((0 : Nat) : Int), { t with
      free_open_file_entries := updF t.free_open_file_entries 0 true,
      of_inumber := updF t.of_inumber 0 1,
      of_offset := updF t.of_offset 0 0 }) := by
    unfold tfs_open
    rw [if_neg (not_not_intro hv)]
    have hlook : tfs_lookup name t = 1 := by
      unfold tfs_lookup
      rw [if_neg (not_not_intro hv)]
      rw [find_in_dir_first ROOT_DIR_INUM name.tail t (by decide)
        (by rw [show ((ROOT_DIR_INUM : Int)).toNat = 0 from rfl, hroot])
        (by rw [show ((ROOT_DIR_INUM : Int)).toNat = 0 from rfl, hroot]; decide)
        (by rw [hdir0]
            show (((1 : Int) != -1) &&
              cstrncmpEq (name.tail.take (MAX_FILE_NAME - 1)) name.tail MAX_FILE_NAME) = true
            rw [List.take_of_length_le hlen, cstrncmpEq_refl]
            decide)]
      rw [hdir0]
    dsimp only
    rw [hlook]
    rw [if_pos (by decide : (0 : Int) ≤ 1)]
    rw [inode_get_some (by decide : valid_inumber 1 = true)]
    dsimp only
    rw [if_neg (by decide : ¬ ((0 : Nat) &&& TFS_O_TRUNC ≠ 0))]
    rw [if_neg (by decide : ¬ ((0 : Int) = -1))]
    rw [if_neg (by decide : ¬ ((0 : Nat) &&& TFS_O_APPEND ≠ 0))]
    rw [add_to_open_file_table_first 1 0 t (hfree 0)]
  rw [hopen]
  dsimp only
  unfold tfs_read
  rw [if_neg (by omega : ¬ n = 0)]
  rw [get_open_file_entry_some (by decide : valid_file_handle ((0 : Nat) : Int) = true)]
  dsimp only
  rw [show (((0 : Nat) : Int)).toNat = 0 from rfl]
  rw [show (updF t.of_inumber 0 1) 0 = (1 : Int) from updF_self _ _ _]
  rw [inode_get_some (by decide : valid_inumber 1 = true)]
  dsimp only
  rw [show ((1 : Int)).toNat = 1 from rfl]
  rw [hsz]
  rw [show (updF t.of_offset 0 0) 0 = 0 from updF_self _ _ _]
  rw [sub64_of_le (by omega) (by omega), Nat.sub_zero]
  rw [if_neg (by omega : ¬ n > n)]
  by_cases hn : n ≤ MAX_BYTES_DIRECT_DATA
  · have hn' : n ≤ 10240 := hn
    rw [if_pos (show 0 + n ≤ MAX_BYTES_DIRECT_DATA by show (0 : Nat) + n ≤ 10240; omega)]
    unfold tfs_read_direct_region
    dsimp only
    rw [show (updF t.of_offset 0 0) 0 = 0 from updF_self _ _ _]
    rw [if_pos (show 0 + n ≤ MAX_BYTES_DIRECT_DATA by show (0 : Nat) + n ≤ 10240; omega)]
    obtain ⟨dest2, s7, heq, D1, D2, D3, D4, D5, D6, D7, D8, D9, D10, D11, D12⟩ :=
      readDirectLoop_data 0 0 buf (n + 1) n 0 0 dest
        { t with
          free_open_file_entries := updF t.free_open_file_entries 0 true,
          of_inumber := updF t.of_inumber 0 1,
          of_offset := updF t.of_offset 0 0 }
        (updF_self t.of_offset 0 0) (by show (0 : Nat) + n ≤ 10240; omega)
        (fun j hj => by
          show t.fs_data (BLOCK_SIZE + 0 + j) = buf (0 + j)
          rw [show BLOCK_SIZE + 0 + j = BLOCK_SIZE + j from by omega, Nat.zero_add]
          exact hdata1 j hj (by omega))
        (Nat.le_succ n)
    simp only [Nat.zero_add] at heq D3
    exact ⟨dest2, s7, heq, fun j hj => D3 j hj⟩
  · have hn' : ¬ n ≤ 10240 := hn
    rw [if_neg (show ¬ (0 + n ≤ MAX_BYTES_DIRECT_DATA) by
      show ¬ ((0 : Nat) + n ≤ 10240); omega)]
    rw [if_neg (show ¬ ((0 : Nat) ≥ MAX_BYTES_DIRECT_DATA) by
      show ¬ ((0 : Nat) ≥ 10240); omega)]
    rw [if_pos (show n + 0 > MAX_BYTES_DIRECT_DATA by show n + 0 > 10240; omega)]
    rw [show MAX_BYTES_DIRECT_DATA - 0 = MAX_BYTES_DIRECT_DATA from rfl]
    unfold tfs_read_direct_region
    dsimp only
    rw [show (updF t.of_offset 0 0) 0 = 0 from updF_self _ _ _]
    rw [if_pos (by decide : (0 : Nat) + MAX_BYTES_DIRECT_DATA ≤ MAX_BYTES_DIRECT_DATA)]
    obtain ⟨dest1, s6, heqD, D1, D2, D3, D4, D5, D6, D7, D8, D9, D10, D11, D12⟩ :=
      readDirectLoop_data 0 0 buf (MAX_BYTES_DIRECT_DATA + 1) MAX_BYTES_DIRECT_DATA 0 0 dest
        { t with
          free_open_file_entries := updF t.free_open_file_entries 0 true,
          of_inumber := updF t.of_inumber 0 1,
          of_offset := updF t.of_offset 0 0 }
        (updF_self t.of_offset 0 0) (by decide)
        (fun j hj => by
          show t.fs_data (BLOCK_SIZE + 0 + j) = buf (0 + j)
          rw [show BLOCK_SIZE + 0 + j = BLOCK_SIZE + j from by omega, Nat.zero_add]
          have hj' : j < 10240 := hj
          exact hdata1 j (by omega) hj)
        (Nat.le_succ _)
    simp only [Nat.zero_add] at heqD D3 D4
    rw [heqD]
    dsimp only
    rw [if_neg (natCast_ne_neg_one _)]
    rw [show (((MAX_BYTES_DIRECT_DATA : Nat) : Int)).toNat = MAX_BYTES_DIRECT_DATA from rfl]
    unfold tfs_read_indirect_region
    obtain ⟨dest2, s7, heqI, E1, E2, E3, E4, E5, E6, E7, E8, E9, E10, E11, E12⟩ :=
      readIndirectLoop_data 0 MAX_BYTES_DIRECT_DATA buf (n - MAX_BYTES_DIRECT_DATA + 1)
        (n - MAX_BYTES_DIRECT_DATA) 0 MAX_BYTES_DIRECT_DATA dest1 s6
        D4 (by show (10240 : Nat) + (n - 10240) ≤ 272384; omega)
        (fun j hj => by
          rw [D7]
          show t.fs_data (2 * BLOCK_SIZE + MAX_BYTES_DIRECT_DATA + j) =
            buf (MAX_BYTES_DIRECT_DATA + j)
          rw [show 2 * BLOCK_SIZE + MAX_BYTES_DIRECT_DATA + j =
            2 * BLOCK_SIZE + (MAX_BYTES_DIRECT_DATA + j) from by
              show (2048 : Nat) + 10240 + j = 2048 + (10240 + j); omega]
          have hj' : j < n - 10240 := hj
          exact hdata2 (MAX_BYTES_DIRECT_DATA + j) (by show (10240:Nat) ≤ 10240 + j; omega)
            (by show (10240 : Nat) + j < n; omega))
        (Nat.le_succ _)
    simp only [Nat.zero_add] at heqI E3
    rw [heqI]
    dsimp only
    rw [if_neg (natCast_ne_neg_one _)]
    refine ⟨dest2, s7, ?_, ?_⟩
    · rw [Prod.mk.injEq]
      refine ⟨?_, rfl⟩
      show ((10240 : Nat) : Int) + (((n - 10240 : Nat)) : Int) = ((n : Nat) : Int)
      omega
    · intro j hj
      by_cases hjd : j < MAX_BYTES_DIRECT_DATA
      · rw [E1 j (by show j < 10240 + 0; have : j < 10240 := hjd; omega)]
        exact D3 j hjd
      · have hE := E3 (j - MAX_BYTES_DIRECT_DATA)
          (by show j - 10240 < n - 10240
              have h1 : ¬ j < 10240 := hjd
              omega)
        simp only [show MAX_BYTES_DIRECT_DATA + 0 + (j - MAX_BYTES_DIRECT_DATA) = j from by
            show (10240 : Nat) + 0 + (j - 10240) = j
            have h1 : ¬ j < 10240 := hjd
            omega,
          show MAX_BYTES_DIRECT_DATA + (j - MAX_BYTES_DIRECT_DATA) = j from by
            show (10240 : Nat) + (j - 10240) = j
            have h1 : ¬ j < 10240 := hjd
            omega] at hE
        exact hE

/-- C1 (amended): the single-threaded read-after-write round trip holds for
every valid path whose file name fits in a directory entry
(at most `MAX_FILE_NAME - 1` characters) and every `0 < n ≤ MAX_BYTES`:
after `init`, creating the file and writing `n` bytes of `buf` from a fresh
open at offset 0, closing, reopening and reading `n` bytes returns `n` and
the destination holds exactly `buf[0..n)`.  (The write also returns `n`.) -/
theorem C1_amended_round_trip (name : List Char) (buf dest : Nat → Nat) (n : Nat)
    (hv : valid_pathname name = true) (hlen : name.tail.length ≤ MAX_FILE_NAME - 1)
    (h0 : 0 < n) (hmax : n ≤ MAX_BYTES) :
    (roundTrip name buf dest n).1 = ((n : Nat) : Int) ∧
    (roundTrip name buf dest n).2.1 = ((n : Nat) : Int) ∧
    ∀ j, j < n → (roundTrip name buf dest n).2.2 j = buf j := by
  obtain ⟨s3, hw, W2, Wroot, Wdir, Wfope, Wofin, W7, W8, W9, W10⟩ :=
    tfs_write_createdFS name buf n h0 hmax
  unfold roundTrip postWrite
  rw [postCreate_eq name hv]
  dsimp only
  rw [hw]
  dsimp only
  unfold tfs_close remove_from_open_file_table
  rw [show ((0 : Int)).toNat = 0 from rfl]
  rw [if_pos ⟨by decide, (congrFun Wfope 0).trans rfl⟩]
  dsimp only
  obtain ⟨dest2, s7, hread, hvals⟩ := reopen_read_data name buf dest n
    { s3 with free_open_file_entries := updF s3.free_open_file_entries 0 false }
    hv hlen h0 hmax
    (Wroot.trans rfl)
    ((congrFun Wdir 0).trans rfl)
    W2
    (fun k => by
      by_cases hk : k = 0
      · subst hk
        exact updF_self s3.free_open_file_entries 0 false
      · show updF s3.free_open_file_entries 0 false k = false
        rw [updF_ne _ _ hk, congrFun Wfope k]
        show decide (k = 0) = false
        simp [hk])
    W7 W8
  rw [hread]
  exact ⟨rfl, rfl, hvals⟩

/-- Witness for C1 (amended): writing and reading back 5 bytes of
`"hello"` through `"/a"` returns 5 and reproduces the bytes. -/
theorem C1_amended_round_trip_witness :
    (roundTrip ['/', 'a'] (fun j => 104 + j) (fun _ => 0) 5).2.1 = ((5 : Nat) : Int) ∧
    ∀ j, j < 5 → (roundTrip ['/', 'a'] (fun j => 104 + j) (fun _ => 0) 5).2.2 j = 104 + j :=
  ⟨(C1_amended_round_trip ['/', 'a'] (fun j => 104 + j) (fun _ => 0) 5 (by decide) (by decide)
      (by decide) (by decide)).2.1,
    (C1_amended_round_trip ['/', 'a'] (fun j => 104 + j) (fun _ => 0) 5 (by decide) (by decide)
      (by decide) (by decide)).2.2⟩

/-- C1 counterexample to the unrestricted claim: `longName` is a valid
pathname (40-character file name), `n = 1` is positive, yet the read of the
round trip returns `-1` instead of 1: `strncpy` stores only the first 39
characters in the directory entry, so the second `tfs_open` cannot find the
file again (`strncmp` compares all 40). -/
theorem C1_counterexample :
    valid_pathname longName = true ∧
    (roundTrip longName (fun j => 104 + j) (fun _ => 0) 1).2.1 = -1 := by
  decide

/-- C2 (amended): in the fresh-file sequential-write scenario the block
holding file byte `B` of the direct region is block `B / BLOCK_SIZE + 1`,
which the write path registers in direct slot `B / BLOCK_SIZE`, and the byte
lives at intra-block offset `B % BLOCK_SIZE` of that block; the claimed
`i_block[B / BLOCK_SIZE]` relation holds because of this sequential
allocation pattern, not because accesses consult `i_block` (they do not:
reads compute the block as `offset / BLOCK_SIZE + 1`, see the
counterexample). -/
theorem C2_amended_direct_addressing (name : List Char) (buf : Nat → Nat) (n B : Nat)
    (hv : valid_pathname name = true)
    (h0 : 0 < n) (hn : n ≤ MAX_BYTES_DIRECT_DATA) (hB : B < n) :
    ((postWrite name buf n).2.inode_table 1).i_block (B / BLOCK_SIZE) =
      ((B / BLOCK_SIZE + 1 : Nat) : Int) ∧
    (postWrite name buf n).2.fs_data
      ((B / BLOCK_SIZE + 1) * BLOCK_SIZE + B % BLOCK_SIZE) = buf B := by
  have hn' : n ≤ 10240 := hn
  obtain ⟨s3, hw, W2, Wroot, Wdir, Wfope, Wofin, W7, W8, W9, W10⟩ :=
    tfs_write_createdFS name buf n h0 (by show n ≤ 272384; omega)
  have hpw : (postWrite name buf n).2 = s3 := by
    unfold postWrite
    rw [postCreate_eq name hv]
    dsimp only
    rw [hw]
  rw [hpw]
  constructor
  · refine W9 (B / BLOCK_SIZE) ?_
    rw [show min n MAX_BYTES_DIRECT_DATA = n from by show min n 10240 = n; omega,
      show blocksOf n = (n + 1023) / 1024 from rfl]
    show B / 1024 < (n + 1023) / 1024
    omega
  · rw [show (B / BLOCK_SIZE + 1) * BLOCK_SIZE + B % BLOCK_SIZE = BLOCK_SIZE + B from by
      show (B / 1024 + 1) * 1024 + B % 1024 = 1024 + B
      omega]
    exact W7 B hB (by show B < 10240; omega)

/-- Witness for C2 (amended): after writing 1500 bytes to `"/a"`, byte 1100
sits in block `1100 / 1024 + 1 = 2`, registered in direct slot 1, at offset
`1100 % 1024`. -/
theorem C2_amended_direct_addressing_witness :
    ((postWrite ['/', 'a'] (fun j => j % 256) 1500).2.inode_table 1).i_block
        (1100 / BLOCK_SIZE) = ((1100 / BLOCK_SIZE + 1 : Nat) : Int) ∧
    (postWrite ['/', 'a'] (fun j => j % 256) 1500).2.fs_data
      ((1100 / BLOCK_SIZE + 1) * BLOCK_SIZE + 1100 % BLOCK_SIZE) = (fun j => j % 256) 1100 :=
  C2_amended_direct_addressing ['/', 'a'] (fun j => j % 256) 1500 1100
    (by decide) (by decide) (by decide) (by decide)

/-- C3 (amended): a data block freshly allocated by the direct-region write
path is filled with `0xFF` = 255 (`memset(block, -1, BLOCK_SIZE)`), not
zeroed; hence in the fresh-file scenario every byte of an allocated block
beyond the `n` written bytes reads back as 255, not 0. -/
theorem C3_amended_fresh_blocks_ff (name : List Char) (buf : Nat → Nat) (n : Nat)
    (hv : valid_pathname name = true)
    (h0 : 0 < n) (hn : n ≤ MAX_BYTES_DIRECT_DATA) :
    ∀ a, n ≤ a → a < BLOCK_SIZE * blocksOf n →
      (postWrite name buf n).2.fs_data (BLOCK_SIZE + a) = 255 := by
  obtain ⟨s3, hw, W2, Wroot, Wdir, Wfope, Wofin, W7, W8, W9, W10⟩ :=
    tfs_write_createdFS name buf n h0 (by
      have hn' : n ≤ 10240 := hn
      show n ≤ 272384
      omega)
  have hpw : (postWrite name buf n).2 = s3 := by
    unfold postWrite
    rw [postCreate_eq name hv]
    dsimp only
    rw [hw]
  rw [hpw]
  exact W10 hn

/-- Witness for C3 (amended): after writing 1500 bytes to `"/a"`, byte 477
of the second data block (file position 1501, flat address
`BLOCK_SIZE + 1501`) reads back as 255. -/
theorem C3_amended_fresh_blocks_ff_witness :
    (postWrite ['/', 'a'] (fun _ => 7) 1500).2.fs_data (BLOCK_SIZE + 1501) = 255 :=
  C3_amended_fresh_blocks_ff ['/', 'a'] (fun _ => 7) 1500
    (by decide) (by decide) (by decide) 1501 (by decide) (by decide)
